import Mathlib

/-! The provisioning workflow of vault-on-google-kubernetes-engine.

A shallow embedding of `main.go` and `gcs.go`.

* Go strings are Lean `String`s; `fmt.Sprintf` with `%s` verbs is concatenation.
* `[]byte` is `Bytes`, a list of octets.
* A Go `error` value is a `GoError`; `errors.Wrap`/`errors.Wrapf` keep the cause.
* Every call that leaves the process (certificate store, cloud provider, file
  system) goes through an `Env`: one state-passing function per call.  A `World`
  is the provider state together with the trace of the calls made so far.
* A pointer result such as `*cloudkms.KeyRing` is an `Option`; `log.Fatal` ends the
  run with `Exit.fatal`, the dereference of a nil pointer with `Exit.nilDeref`.  The
  `log.Printf` and `fmt.Println` lines are not modelled.
* `filepath.Join`/`filepath.Clean` (Go standard library, Unix) and
  `iam.Policy.Add` (cloud.google.com/go/iam) are transcribed from the libraries.
-/

namespace VaultGKE

/-! ## Strings and paths -/

/-- Octet strings (`[]byte`). -/
abbrev Bytes := List (Fin 256)

/-- Go `error` values; `wrap` is `errors.Wrap(cause, msg)`. -/
inductive GoError where
  | raw (msg : String)
  | wrap (cause : GoError) (msg : String)
  deriving DecidableEq, Repr

/-- The `out.w--; for out.w > dotdot && !IsPathSeparator(out.index(out.w))` loop of
`filepath.Clean`, on the reversed buffer: `dropped` is the byte at index `out.w`. -/
def backtrackRev (dotdot : Nat) : Char → List Char → List Char
  | _, [] => []
  | dropped, c :: rest =>
    if (c :: rest).length > dotdot ∧ dropped ≠ '/' then backtrackRev dotdot c rest
    else c :: rest

/-- The backtracking step of `filepath.Clean` for a `..` element (`out.w > dotdot`). -/
def backtrack (dotdot : Nat) (out : List Char) : List Char :=
  match out.reverse with
  | [] => []
  | c :: rest => (backtrackRev dotdot c rest).reverse

/-- The main loop `for r < n` of `filepath.Clean`: `path` is `path[r:]`, `out` the
bytes written so far; the result is `out` when the loop ends.  Each round consumes at
least one byte, so `fuel` above the length of `path` is never used up
(`cleanLoop_isSome`); `none` is running out of fuel. -/
def cleanLoop (rooted : Bool) : Nat → List Char → List Char → Nat → Option (List Char)
  | _, [], out, _ => some out
  | 0, _ :: _, _, _ => none
  | fuel + 1, c :: rest, out, dotdot =>
    if c = '/' then
      -- empty path element
      cleanLoop rooted fuel rest out dotdot
    else if c = '.' ∧ (rest = [] ∨ rest.head? = some '/') then
      -- . element
      cleanLoop rooted fuel rest out dotdot
    else if c = '.' ∧ rest.head? = some '.' ∧
        (rest.tail = [] ∨ rest.tail.head? = some '/') then
      -- .. element: remove to last separator
      if out.length > dotdot then
        cleanLoop rooted fuel rest.tail (backtrack dotdot out) dotdot
      else if !rooted then
        let out1 := if out.length > 0 then out ++ ['/'] else out
        let out2 := out1 ++ ['.', '.']
        cleanLoop rooted fuel rest.tail out2 out2.length
      else
        cleanLoop rooted fuel rest.tail out dotdot
    else
      -- real path element: add slash if needed, copy element
      let out1 :=
        if (rooted ∧ out.length ≠ 1) ∨ (!rooted ∧ out.length ≠ 0) then out ++ ['/'] else out
      let elem := (c :: rest).takeWhile (fun x => x ≠ '/')
      let rest1 := (c :: rest).dropWhile (fun x => x ≠ '/')
      cleanLoop rooted fuel rest1 (out1 ++ elem) dotdot

/-- Go `filepath.Clean` on Unix (no volume name, separator `/`), on the characters of
the path: the separator and the dot are ASCII, so the byte loop of the library and
this loop see the same elements.  The fuel given is enough (`cleanChars_fuel`), so
the `none` branch is never taken. -/
def cleanChars (path : List Char) : List Char :=
  if path = [] then ['.']
  else
    let rooted : Bool := path.head? = some '/'
    match cleanLoop rooted (path.length + 1) (if rooted then path.tail else path)
      (if rooted then ['/'] else []) (if rooted then 1 else 0) with
    | none => []
    | some out => if out.length = 0 then ['.'] else out

/-- Go `filepath.Clean`. -/
def Clean (path : String) : String := String.mk (cleanChars path.data)

/-- Go `strings.Join(elems, "/")`. -/
def joinSlash : List String → String
  | [] => ""
  | [e] => e
  | e :: es => e ++ "/" ++ joinSlash es

/-- Go `filepath.Join`: the elements from the first non-empty one on, joined by the
separator and cleaned; the empty string when every element is empty. -/
def Join : List String → String
  | [] => ""
  | e :: es => if e ≠ "" then Clean (joinSlash (e :: es)) else Join es

/-- The name `IsKeyRingExists` looks up (gcs.go line 72). -/
def keyRingLookupName (projectID location keyRingID : String) : String :=
  "projects/" ++ projectID ++ "/locations/" ++ location ++ "/keyRings/" ++ keyRingID

/-- The `parent` of `CreateKeyRing` (gcs.go line 86). -/
def keyRingParent (projectID location : String) : String :=
  "projects/" ++ projectID ++ "/locations/" ++ location

/-- The `Name` `CreateKeyRing` puts in the key ring it sends (gcs.go line 91). -/
def keyRingCreateName (projectID location keyRingID : String) : String :=
  Join [keyRingParent projectID location, "keyRings", keyRingID]

/-- Go `strings.Split(s, "/")` on the bytes of `s`. -/
def splitSlash : List Char → List (List Char)
  | [] => [[]]
  | c :: cs =>
    if c = '/' then [] :: splitSlash cs
    else
      match splitSlash cs with
      | [] => [[c]]
      | e :: es => (c :: e) :: es

/-- A path element that `filepath.Clean` copies: not empty, not `.`, not `..`. -/
def realElem (e : List Char) : Bool :=
  decide (e ≠ []) && decide (e ≠ ['.']) && decide (e ≠ ['.', '.'])

/-- Every `/`-separated element of `s` is a real element. -/
def realElems (s : String) : Bool := (splitSlash s.data).all realElem

/-- Each element preceded by a separator. -/
def slashed : List (List Char) → List Char
  | [] => []
  | e :: es => '/' :: e ++ slashed es

/-- The elements joined by the separator. -/
def joinElems : List (List Char) → List Char
  | [] => []
  | e :: es => e ++ slashed es

/-- The number of path elements of a buffer: one more than its separators, none for
the empty buffer. -/
def elemCount (out : List Char) : Nat := out.count '/' + (if out = [] then 0 else 1)

/-! ## Data model -/

/-- Key ring descriptor (`cloudkms.KeyRing`). -/
structure KeyRing where
  Name : String
  CreateTime : String
  deriving DecidableEq, Repr

/-- Crypto key descriptor (`cloudkms.CryptoKey`): the fields this program sets or reads. -/
structure CryptoKey where
  Name : String
  Purpose : String
  deriving DecidableEq, Repr

/-- Role binding (`cloudkms.Binding`, `iampb.Binding`). -/
structure Binding where
  Role : String
  Members : List String
  deriving DecidableEq, Repr

/-- Access policy document of a crypto key (`cloudkms.Policy`). -/
structure Policy where
  AuditConfigs : List String
  Bindings : List Binding
  Etag : String
  Version : Int
  deriving DecidableEq, Repr

/-- Service account descriptor (`adminpb.ServiceAccount`). -/
structure ServiceAccount where
  Name : String
  ProjectId : String
  UniqueId : String
  Email : String
  DisplayName : String
  deriving DecidableEq, Repr

/-- Storage policy message (`iampb.Policy`), the `InternalProto` of an `iam.Policy`. -/
structure PbPolicy where
  Version : Int
  Bindings : List Binding
  Etag : Bytes
  deriving DecidableEq, Repr

/-- Access policy document of a bucket (`iam.Policy` of cloud.google.com/go/iam). -/
structure IamPolicy where
  InternalProto : Option PbPolicy
  deriving DecidableEq, Repr

/-- Subject alternative names (`cert.AltNames`); an IP is kept as the text given to
`net.ParseIP`. -/
structure AltNames where
  DNSNames : List String
  IPs : List String
  deriving DecidableEq, Repr

/-- Token source configuration (`jwt.Config`), as parsed from the key file. -/
structure JwtConfig where
  json : Bytes
  scopes : List String
  deriving DecidableEq, Repr

/-- Kubernetes object metadata (`metav1.ObjectMeta`): the field this program sets. -/
structure ObjectMeta where
  Name : String
  deriving DecidableEq, Repr

/-- Go map with string keys, as the list of its entries. -/
abbrev GoMap (V : Type) := List (String × V)

/-- Secret document (`corev1.Secret`). -/
structure Secret where
  ObjectMeta : ObjectMeta
  Data : GoMap Bytes
  deriving DecidableEq, Repr

/-- Configuration document (`corev1.ConfigMap`). -/
structure ConfigMap where
  ObjectMeta : ObjectMeta
  Data : GoMap String
  deriving DecidableEq, Repr

/-- Manifest object (`runtime.Object`): the two kinds this program builds. -/
inductive Object where
  | secret (s : Secret)
  | configMap (c : ConfigMap)
  deriving DecidableEq, Repr

/-! ## The policy of a bucket: `iam.Policy` -/

/-- The loop of `(*iam.Policy).binding`: the first binding for role `r`, with its
index in the list (the Go code returns a pointer into the list). -/
def bindingOf (r : String) : List Binding → Option (Nat × Binding)
  | [] => none
  | b :: bs =>
    if b.Role = r then some (0, b)
    else (bindingOf r bs).map (fun ib => (ib.1 + 1, ib.2))

/-- Method `(*iam.Policy).binding`: nil when there is no `InternalProto` or no binding
for the role. -/
def IamPolicy.binding (p : IamPolicy) (r : String) : Option (Nat × Binding) :=
  match p.InternalProto with
  | none => none
  | some proto => bindingOf r proto.Bindings

/-- The loop of `memberIndex`, from index `i` on. -/
def indexOfMember (m : String) : List String → Int → Int
  | [], _ => -1
  | mm :: rest, i => if mm = m then i else indexOfMember m rest (i + 1)

/-- Function `memberIndex` of cloud.google.com/go/iam: -1 for a nil binding or an
absent member. -/
def memberIndex (m : String) (b : Option Binding) : Int :=
  match b with
  | none => -1
  | some b => indexOfMember m b.Members 0

/-- Method `(*iam.Policy).Members`. -/
def IamPolicy.Members (p : IamPolicy) (r : String) : List String :=
  match p.binding r with
  | none => []
  | some ib => ib.2.Members

/-- Method `(*iam.Policy).HasRole`. -/
def IamPolicy.HasRole (p : IamPolicy) (member r : String) : Bool :=
  decide (memberIndex member ((p.binding r).map (fun ib => ib.2)) ≥ 0)

/-- Method `(*iam.Policy).Add`: "Add adds member member to role r if it is not already
present. A new binding is created if there is no binding for the role." -/
def IamPolicy.Add (p : IamPolicy) (member r : String) : IamPolicy :=
  match p.binding r with
  | none =>
    let proto := p.InternalProto.getD { Version := 0, Bindings := [], Etag := [] }
    { InternalProto := some
        { proto with Bindings := proto.Bindings ++ [{ Role := r, Members := [member] }] } }
  | some ib =>
    if memberIndex member (some ib.2) < 0 then
      { InternalProto := p.InternalProto.map (fun proto =>
          { proto with Bindings :=
              proto.Bindings.set ib.1 { ib.2 with Members := ib.2.Members ++ [member] } }) }
    else p

/-! ## The outside world -/

/-- One call that leaves the process, with its arguments. -/
inductive Call where
  | NewCertStore (dir : String)
  | NewCA
  | NewServerCertPair (name : String) (altNames : AltNames)
  | ReadFile (name : String)
  | WriteFile (name : String) (data : Bytes) (perm : Nat)
  | KmsNew
  | NewIamClient
  | StorageNewClient
  | KeyRingsGet (name : String)
  | KeyRingsCreate (parent : String) (keyRing : KeyRing) (keyRingId : String)
  | CryptoKeysGet (name : String)
  | CryptoKeysCreate (parent : String) (cryptoKey : CryptoKey) (cryptoKeyId : String)
  | CryptoKeysGetIamPolicy (resource : String)
  | CryptoKeysSetIamPolicy (resource : String) (policy : Policy)
  | GetServiceAccount (name : String)
  | CreateServiceAccount (name accountId displayName : String)
  | BucketAttrs (bucket : String)
  | BucketCreate (bucket projectID : String)
  | BucketIAMPolicy (bucket : String)
  | BucketIAMSetPolicy (bucket : String) (policy : IamPolicy)
  deriving DecidableEq, Repr

/-- The four create operations of the resource provider. -/
def Call.isCreate : Call → Bool
  | .KeyRingsCreate _ _ _ => true
  | .CryptoKeysCreate _ _ _ => true
  | .CreateServiceAccount _ _ _ => true
  | .BucketCreate _ _ => true
  | _ => false

/-- The external collaborators, over a provider state `σ`: the certificate store,
the file system, the client constructors, Cloud KMS, IAM admin, Cloud Storage and the
manifest codec.  Each stateful call maps the state before it to its result and the
state after it. -/
structure Env (σ : Type) where
  NewCertStore : String → σ → Except GoError Unit × σ
  NewCA : σ → Except GoError Unit × σ
  CACert : σ → Bytes
  NewServerCertPair : String → AltNames → σ → Except GoError (Bytes × Bytes) × σ
  ReadFile : String → σ → Except GoError Bytes × σ
  WriteFile : String → Bytes → Nat → σ → Except GoError Unit × σ
  JWTConfigFromJSON : Bytes → List String → Except GoError JwtConfig
  KmsNew : Option JwtConfig → σ → Except GoError Unit × σ
  NewIamClient : Option JwtConfig → σ → Except GoError Unit × σ
  StorageNewClient : Option JwtConfig → σ → Except GoError Unit × σ
  KeyRingsGet : String → σ → Except GoError KeyRing × σ
  KeyRingsCreate : String → KeyRing → String → σ → Except GoError KeyRing × σ
  CryptoKeysGet : String → σ → Except GoError CryptoKey × σ
  CryptoKeysCreate : String → CryptoKey → String → σ → Except GoError CryptoKey × σ
  CryptoKeysGetIamPolicy : String → σ → Except GoError Policy × σ
  CryptoKeysSetIamPolicy : String → Policy → σ → Except GoError Policy × σ
  GetServiceAccount : String → σ → Except GoError ServiceAccount × σ
  CreateServiceAccount : String → String → String → σ → Except GoError ServiceAccount × σ
  BucketAttrs : String → σ → Except GoError Unit × σ
  BucketCreate : String → String → σ → Except GoError Unit × σ
  BucketIAMPolicy : String → σ → Except GoError IamPolicy × σ
  BucketIAMSetPolicy : String → IamPolicy → σ → Except GoError Unit × σ
  SerializerInfoForMediaType : String → Option (Object → Except GoError Bytes)

/-- The provider state and the calls made so far, oldest first. -/
structure World (σ : Type) where
  st : σ
  trace : List Call

/-- Make one external call: record it and thread the state. -/
def World.call {σ α : Type} (w : World σ) (c : Call) (op : σ → α × σ) : α × World σ :=
  ((op w.st).1, { st := (op w.st).2, trace := w.trace ++ [c] })

/-- The calls made between world `w` and the later world `w1`. -/
def callsSince {σ : Type} (w w1 : World σ) : List Call := w1.trace.drop w.trace.length

/-- The `created` flag of the ensure step: a create operation was called between `w`
and `w1`. -/
def created {σ : Type} (w w1 : World σ) : Bool := (callsSince w w1).any Call.isCreate

/-- The result triple of an existence check: descriptor pointer, `found`, error. -/
structure Found (α : Type) where
  val : Option α
  found : Bool
  err : Option GoError
  deriving DecidableEq, Repr

/-! ## gcs.go -/

/-- The receiver `*Gcs`; its three clients are the `Env`. -/
structure Gcs where
  SAJsonFile : String
  BucketName : String
  deriving DecidableEq, Repr

/-- Constant `cloudkms.CloudPlatformScope`. -/
def CloudPlatformScope : String := "https://www.googleapis.com/auth/cloud-platform"

/-- The `if saJsonFile != ""` block of `NewGcs` (gcs.go lines 39-49): the value of
`jwtConfig` after it, or the error returned from inside it. -/
def loadJwtConfig {σ : Type} (env : Env σ) (saJsonFile : String) (w : World σ) :
    Except GoError (Option JwtConfig) × World σ :=
  if saJsonFile ≠ "" then
    let r := w.call (.ReadFile saJsonFile) (env.ReadFile saJsonFile)
    match r.1 with
    | .error err =>
      (.error (.wrap err ("failed to load service account json file " ++ saJsonFile)), r.2)
    | .ok sa =>
      match env.JWTConfigFromJSON sa [CloudPlatformScope, "https://www.googleapis.com/auth/iam"] with
      | .error err =>
        (.error (.wrap err
          ("failed to create JWT config from service account json file " ++ saJsonFile)), r.2)
      | .ok jwtConfig => (.ok (some jwtConfig), r.2)
  else (.ok none, w)

/-- Function `NewGcs` (gcs.go lines 30-69). -/
def NewGcs {σ : Type} (env : Env σ) (saJsonFile : String) (w : World σ) :
    Except GoError Gcs × World σ :=
  let r0 := loadJwtConfig env saJsonFile w
  match r0.1 with
  | .error err => (.error err, r0.2)
  | .ok jwtConfig =>
    let r1 := r0.2.call .KmsNew (env.KmsNew jwtConfig)
    match r1.1 with
    | .error err => (.error (.wrap err "unable to create kms service"), r1.2)
    | .ok _ =>
      let r2 := r1.2.call .NewIamClient (env.NewIamClient jwtConfig)
      match r2.1 with
      | .error err => (.error (.wrap err "unable to create iam client"), r2.2)
      | .ok _ =>
        let r3 := r2.2.call .StorageNewClient (env.StorageNewClient jwtConfig)
        match r3.1 with
        | .error err => (.error (.wrap err "unable to create google cloud storage"), r3.2)
        | .ok _ => (.ok { SAJsonFile := "", BucketName := "" }, r3.2)

/-- Method `IsKeyRingExists` (gcs.go lines 71-80). -/
def IsKeyRingExists {σ : Type} (env : Env σ) (projectID location keyRingID : String)
    (w : World σ) : Found KeyRing × World σ :=
  let name := keyRingLookupName projectID location keyRingID
  let r := w.call (.KeyRingsGet name) (env.KeyRingsGet name)
  match r.1 with
  | .error err => ({ val := none, found := false, err := some err }, r.2)
  | .ok kRing => ({ val := some kRing, found := true, err := none }, r.2)

/-- Method `CreateKeyRing` (gcs.go lines 83-104). -/
def CreateKeyRing {σ : Type} (env : Env σ) (projectID location keyRingID : String)
    (w : World σ) : Except GoError KeyRing × World σ :=
  let parent := keyRingParent projectID location
  let keyRing : KeyRing :=
    { Name := keyRingCreateName projectID location keyRingID, CreateTime := "" }
  let r := w.call (.KeyRingsCreate parent keyRing keyRingID)
    (env.KeyRingsCreate parent keyRing keyRingID)
  match r.1 with
  | .error err => (.error (.wrap err ("unable to create keyring(" ++ keyRingID ++ ")")), r.2)
  | .ok kRing => (.ok kRing, r.2)

/-- Method `IsKeyExists` (gcs.go lines 106-115). -/
def IsKeyExists {σ : Type} (env : Env σ) (keyRing keyID : String) (w : World σ) :
    Found CryptoKey × World σ :=
  let name := keyRing ++ "/cryptoKeys/" ++ keyID
  let r := w.call (.CryptoKeysGet name) (env.CryptoKeysGet name)
  match r.1 with
  | .error err => ({ val := none, found := false, err := some err }, r.2)
  | .ok key => ({ val := some key, found := true, err := none }, r.2)

/-- Method `CreateKey` (gcs.go lines 121-137). -/
def CreateKey {σ : Type} (env : Env σ) (keyRing keyID : String) (w : World σ) :
    Except GoError CryptoKey × World σ :=
  let cryptoKey : CryptoKey := { Name := "", Purpose := "ENCRYPT_DECRYPT" }
  let r := w.call (.CryptoKeysCreate keyRing cryptoKey keyID)
    (env.CryptoKeysCreate keyRing cryptoKey keyID)
  match r.1 with
  | .error err => (.error (.wrap err "unable to create crypto key"), r.2)
  | .ok k => (.ok k, r.2)

/-- The binding `SetPolicyInKey` appends (gcs.go lines 150-155). -/
def keyBinding (saEmail : String) : Binding :=
  { Role := "roles/cloudkms.cryptoKeyEncrypterDecrypter",
    Members := ["serviceAccount:" ++ saEmail] }

/-- Method `SetPolicyInKey` (gcs.go lines 143-167); `none` is the nil error. -/
def SetPolicyInKey {σ : Type} (env : Env σ) (saEmail keyResourceID : String)
    (w : World σ) : Option GoError × World σ :=
  let r := w.call (.CryptoKeysGetIamPolicy keyResourceID)
    (env.CryptoKeysGetIamPolicy keyResourceID)
  match r.1 with
  | .error err => (some (.wrap err "unable to get policy"), r.2)
  | .ok policy =>
    let policy1 : Policy := { policy with Bindings := policy.Bindings ++ [keyBinding saEmail] }
    let r1 := r.2.call (.CryptoKeysSetIamPolicy keyResourceID policy1)
      (env.CryptoKeysSetIamPolicy keyResourceID policy1)
    match r1.1 with
    | .error err =>
      (some (.wrap err
        ("unable to set policy in crypto key for service account(" ++ saEmail ++ ")")), r1.2)
    | .ok _ => (none, r1.2)

/-- Method `IsIAMServiceAccountExists` (gcs.go lines 170-183). -/
def IsIAMServiceAccountExists {σ : Type} (env : Env σ) (_projectID saAccountID : String)
    (w : World σ) : Found ServiceAccount × World σ :=
  let name := "projects/-/serviceAccounts/" ++ saAccountID
  let r := w.call (.GetServiceAccount name) (env.GetServiceAccount name)
  match r.1 with
  | .error err => ({ val := none, found := false, err := some err }, r.2)
  | .ok sa => ({ val := some sa, found := true, err := none }, r.2)

/-- Method `CreateIAMServiceAccount` (gcs.go lines 186-202). -/
def CreateIAMServiceAccount {σ : Type} (env : Env σ) (projectID saName acID : String)
    (w : World σ) : Except GoError ServiceAccount × World σ :=
  let name := Join ["projects", projectID]
  let r := w.call (.CreateServiceAccount name acID saName)
    (env.CreateServiceAccount name acID saName)
  match r.1 with
  | .error err => (.error (.wrap err "unable to create service account"), r.2)
  | .ok sa => (.ok sa, r.2)

/-- Method `CreateCloudStorage` (gcs.go lines 207-214); `none` is the nil error.  The
bucket attributes, which `main` leaves empty, are not passed on. -/
def CreateCloudStorage {σ : Type} (env : Env σ) (projectID bucketName : String)
    (w : World σ) : Option GoError × World σ :=
  let r := w.call (.BucketCreate bucketName projectID) (env.BucketCreate bucketName projectID)
  match r.1 with
  | .error err => (some (.wrap err ("unable to create bucket(" ++ bucketName ++ ")")), r.2)
  | .ok _ => (none, r.2)

/-- Method `IsCloudStorageExists` (gcs.go lines 216-222). -/
def IsCloudStorageExists {σ : Type} (env : Env σ) (bucketName : String) (w : World σ) :
    (Bool × Option GoError) × World σ :=
  let r := w.call (.BucketAttrs bucketName) (env.BucketAttrs bucketName)
  match r.1 with
  | .error err => ((false, some err), r.2)
  | .ok _ => ((true, none), r.2)

/-- The policy `SetPolicyInStorageBucket` writes back for the policy `p` it read
(gcs.go lines 236-239). -/
def bucketGrant (saEmail : String) (p : IamPolicy) : IamPolicy :=
  let member := "serviceAccount:" ++ saEmail
  (p.Add member "roles/storage.objectAdmin").Add member "roles/storage.legacyBucketReader"

/-- Method `SetPolicyInStorageBucket` (gcs.go lines 228-249); `none` is the nil error. -/
def SetPolicyInStorageBucket {σ : Type} (env : Env σ) (saEmail bucketName : String)
    (w : World σ) : Option GoError × World σ :=
  let r := w.call (.BucketIAMPolicy bucketName) (env.BucketIAMPolicy bucketName)
  match r.1 with
  | .error err => (some (.wrap err "unable to get policy"), r.2)
  | .ok p =>
    let p1 := bucketGrant saEmail p
    let r1 := r.2.call (.BucketIAMSetPolicy bucketName p1) (env.BucketIAMSetPolicy bucketName p1)
    match r1.1 with
    | .error err =>
      (some (.wrap err
        ("unable to set policy in storage bucket for service account(" ++ saEmail ++ ")")), r1.2)
    | .ok _ => (none, r1.2)

/-! ## main.go -/

/-- Package variable `KeyRingName`. -/
def KeyRingName : String := "nahid-test"
/-- Package variable `KeyName`. -/
def KeyName : String := "vault-init2"
/-- Package variable `BucketName`. -/
def BucketName : String := "vault-test-bucket"
/-- Package variable `ProjectID`. -/
def ProjectID : String := "tigerworks-kube"
/-- Package variable `SAJsonFile`. -/
def SAJsonFile : String := "/home/ac/Downloads/cred/gc-sa-vault-admin.json"
/-- Package variable `ServiceAccountName`. -/
def ServiceAccountName : String := "sa-nahid-test"
/-- Package variable `ServiceAccountID`. -/
def ServiceAccountID : String := "sa-nahid-test-1234"

/-- The alternative names of the server certificate (main.go lines 45-54). -/
def serverAltNames : AltNames :=
  { DNSNames := ["vault", "vault.default.svc.cluster.local", "localhost"],
    IPs := ["127.0.0.1"] }

/-- How a run of `main` ends: it returns, `log.Fatal` ends it with an error, or it
dereferences a nil pointer. -/
inductive Exit where
  | done
  | fatal (err : GoError)
  | nilDeref
  deriving DecidableEq, Repr

/-- The key ring step (main.go lines 61-68): the value of `kRing` after it. -/
def ensureKeyRing {σ : Type} (env : Env σ) (projectID location keyRingName : String)
    (w : World σ) : Except Exit (Option KeyRing) × World σ :=
  let r := IsKeyRingExists env projectID location keyRingName w
  if !r.1.found then
    let c := CreateKeyRing env projectID location keyRingName r.2
    match c.1 with
    | .error err => (.error (.fatal err), c.2)
    | .ok kRing => (.ok (some kRing), c.2)
  else (.ok r.1.val, r.2)

/-- The crypto key step (main.go lines 70-77): the value of `crytpoKey` after it. -/
def ensureKey {σ : Type} (env : Env σ) (keyRing keyName : String) (w : World σ) :
    Except Exit (Option CryptoKey) × World σ :=
  let r := IsKeyExists env keyRing keyName w
  if !r.1.found then
    let c := CreateKey env keyRing keyName r.2
    match c.1 with
    | .error err => (.error (.fatal err), c.2)
    | .ok crytpoKey => (.ok (some crytpoKey), c.2)
  else (.ok r.1.val, r.2)

/-- The bucket step (main.go lines 79-86). -/
def ensureBucket {σ : Type} (env : Env σ) (projectID bucketName : String) (w : World σ) :
    Except Exit Unit × World σ :=
  let r := IsCloudStorageExists env bucketName w
  if !r.1.1 then
    let c := CreateCloudStorage env projectID bucketName r.2
    match c.1 with
    | some err => (.error (.fatal err), c.2)
    | none => (.ok (), c.2)
  else (.ok (), r.2)

/-- The e-mail address `main` looks the service account up by (main.go line 90). -/
def serviceAccountEmail (serviceAccountID projectID : String) : String :=
  serviceAccountID ++ "@" ++ projectID ++ ".iam.gserviceaccount.com"

/-- The service account step (main.go lines 88-98): the value of `sa` after it. -/
def ensureServiceAccount {σ : Type} (env : Env σ)
    (projectID serviceAccountName serviceAccountID : String) (w : World σ) :
    Except Exit (Option ServiceAccount) × World σ :=
  let r := IsIAMServiceAccountExists env projectID
    (serviceAccountEmail serviceAccountID projectID) w
  if !r.1.found then
    let c := CreateIAMServiceAccount env projectID serviceAccountName serviceAccountID r.2
    match c.1 with
    | .error err => (.error (.fatal err), c.2)
    | .ok sa => (.ok (some sa), c.2)
  else (.ok r.1.val, r.2)

/-- The bytes of the document separator `"---\n"`. -/
def separator : Bytes := [45, 45, 45, 10]

/-- The `for i, obj := range objects` loop of `GenerateYmals` (main.go lines 134-142):
`buf` is the buffer so far, `encode obj` the bytes `codec.Encode` appends to it. -/
def encodeLoop (encode : Object → Except GoError Bytes) :
    Nat → List Object → Bytes → Except GoError Bytes
  | _, [], buf => .ok buf
  | i, obj :: rest, buf =>
    let buf1 := if i > 0 then buf ++ separator else buf
    match encode obj with
    | .error err => .error err
    | .ok bytes => encodeLoop encode (i + 1) rest (buf1 ++ bytes)

/-- Function `GenerateYmals` (main.go lines 125-144). -/
def GenerateYmals {σ : Type} (env : Env σ) (objects : List Object) : Except GoError Bytes :=
  let mediaType := "application/yaml"
  match env.SerializerInfoForMediaType mediaType with
  | none => .error (.raw ("unsupported media type \"" ++ mediaType ++ "\""))
  | some codec => encodeLoop codec 0 objects []

/-- Function `getSecret` (main.go lines 146-157). -/
def getSecret (ca crt key : Bytes) : Secret :=
  { ObjectMeta := { Name := "vault" },
    Data := [("ca.crt", ca), ("server.crt", crt), ("server.key", key)] }

/-- Function `getConfigMap` (main.go lines 159-170). -/
def getConfigMap (apiAddr gcsBucketName kmsKeyID : String) : ConfigMap :=
  { ObjectMeta := { Name := "vault" },
    Data := [("api-addr", apiAddr), ("gcs-bucket-name", gcsBucketName),
      ("kms-key-id", kmsKeyID)] }

/-- The slice `objects` that `main` builds and hands to `GenerateYmals` (main.go
lines 110-111). -/
def manifestObjects (ca crt key : Bytes) (kmsKeyID : String) : List Object :=
  [] ++ [Object.secret (getSecret ca crt key),
    Object.configMap (getConfigMap "https://vault.default.svc" BucketName kmsKeyID)]

/-- The end of `main` (main.go lines 100-123): the two grants, then the manifest. -/
def grantAndEmit {σ : Type} (env : Env σ) (ca crt key : Bytes) (crytpoKey : CryptoKey)
    (sa : ServiceAccount) (w : World σ) : Exit × World σ :=
  let g1 := SetPolicyInKey env sa.Email crytpoKey.Name w
  match g1.1 with
  | some err => (.fatal err, g1.2)
  | none =>
    let g2 := SetPolicyInStorageBucket env sa.Email BucketName g1.2
    match g2.1 with
    | some err => (.fatal err, g2.2)
    | none =>
      let objects := manifestObjects ca crt key crytpoKey.Name
      -- data, err := GenerateYmals(objects); err is overwritten by the next line
      let data : Bytes :=
        match GenerateYmals env objects with
        | .ok data => data
        | .error _ => []
      let f := g2.2.call (.WriteFile "vault-config.yaml" data 777)
        (env.WriteFile "vault-config.yaml" data 777)
      match f.1 with
      | .error err => (.fatal err, f.2)
      | .ok _ => (.done, f.2)

/-- The part of `main` from `NewGcs` on (main.go lines 56-123), for the certificate
bytes `ca`, `crt`, `key` obtained before it. -/
def provision {σ : Type} (env : Env σ) (ca crt key : Bytes) (w : World σ) :
    Exit × World σ :=
  let r4 := NewGcs env SAJsonFile w
  match r4.1 with
  | .error err => (.fatal err, r4.2)
  | .ok _ =>
    let r5 := ensureKeyRing env ProjectID "global" KeyRingName r4.2
    match r5.1 with
    | .error x => (x, r5.2)
    | .ok none => (.nilDeref, r5.2)
    | .ok (some kRing) =>
      let r6 := ensureKey env kRing.Name KeyName r5.2
      match r6.1 with
      | .error x => (x, r6.2)
      | .ok crytpoKey? =>
        let r7 := ensureBucket env ProjectID BucketName r6.2
        match r7.1 with
        | .error x => (x, r7.2)
        | .ok _ =>
          let r8 := ensureServiceAccount env ProjectID ServiceAccountName ServiceAccountID r7.2
          match r8.1 with
          | .error x => (x, r8.2)
          | .ok none => (.nilDeref, r8.2)
          | .ok (some sa) =>
            match crytpoKey? with
            | none => (.nilDeref, r8.2)
            | some crytpoKey => grantAndEmit env ca crt key crytpoKey sa r8.2

/-- Function `main` (main.go lines 33-123). -/
def main {σ : Type} (env : Env σ) (w : World σ) : Exit × World σ :=
  let r1 := w.call (.NewCertStore "./pki") (env.NewCertStore "./pki")
  match r1.1 with
  | .error err => (.fatal err, r1.2)
  | .ok _ =>
    let r2 := r1.2.call .NewCA env.NewCA
    match r2.1 with
    | .error err => (.fatal err, r2.2)
    | .ok _ =>
      let ca := env.CACert r2.2.st
      let r3 := r2.2.call (.NewServerCertPair "server" serverAltNames)
        (env.NewServerCertPair "server" serverAltNames)
      -- crt, key, err := ...; err is not read before `gcs, err := NewGcs(...)` sets it
      let crt : Bytes := match r3.1 with
        | .ok ck => ck.1
        | .error _ => []
      let key : Bytes := match r3.1 with
        | .ok ck => ck.2
        | .error _ => []
      provision env ca crt key r3.2

/-! ## Notions used to state the claims -/

/-- The number of bindings of a binding list that grant `role` to `member`. -/
def bindingsFor (role member : String) (bs : List Binding) : Nat :=
  bs.countP (fun b => decide (b.Role = role ∧ member ∈ b.Members))

/-- The number of times `member` is listed under `role` in a bucket policy, over all
its bindings for that role. -/
def occurrences (p : IamPolicy) (member role : String) : Nat :=
  match p.InternalProto with
  | none => 0
  | some proto =>
    ((proto.Bindings.filter (fun b => decide (b.Role = role))).map
      (fun b => b.Members.count member)).sum

/-- The policy message behind an `iam.Policy`, the empty message when it has none. -/
def protoOf (p : IamPolicy) : PbPolicy :=
  p.InternalProto.getD { Version := 0, Bindings := [], Etag := [] }

/-- What `iam.Policy.Add` does to the binding list, by recursion on the list: the
first binding for the role gets the member unless it has it, and a list without a
binding for the role gets a new one at its end. -/
def addTo (member r : String) : List Binding → List Binding
  | [] => [{ Role := r, Members := [member] }]
  | b :: bs =>
    if b.Role = r then
      if member ∈ b.Members then b :: bs
      else { b with Members := b.Members ++ [member] } :: bs
    else b :: addTo member r bs

/-- The members of the first binding for role `r` in a binding list. -/
def membersOf (r : String) (bs : List Binding) : List String :=
  match bindingOf r bs with
  | none => []
  | some ib => ib.2.Members

/-- Each document preceded by the separator. -/
def sepDocs : List Bytes → Bytes
  | [] => []
  | d :: ds => separator ++ d ++ sepDocs ds

/-- The manifest as the specification words it: the encodings in input order with
the separator between consecutive documents, none before the first or after the
last. -/
def joinDocs : List Bytes → Bytes
  | [] => []
  | [d] => d
  | d :: ds => d ++ separator ++ joinDocs ds

/-! ## A reference provider held in memory

A small provider used to run the program on concrete inputs: resources are kept in
lists, a create adds the resource under the name the provider derives from the parent
and the id, a policy write stores the document as it is. -/

/-- The state of the in-memory provider. -/
structure Mem where
  keyRings : List KeyRing
  cryptoKeys : List CryptoKey
  buckets : List String
  serviceAccounts : List ServiceAccount
  keyPolicies : List (String × Policy)
  bucketPolicies : List (String × IamPolicy)
  files : List (String × Bytes)
  certPairFails : Bool
  deriving DecidableEq, Repr

/-- The toy encoder of the in-memory provider: a tag for the kind of document and
the number of its data entries. -/
def memEncode : Object → Except GoError Bytes
  | .secret s => .ok [115, Fin.ofNat s.Data.length]
  | .configMap c => .ok [99, Fin.ofNat c.Data.length]

/-- The policy of a resource that has none stored yet. -/
def emptyPolicy : Policy := { AuditConfigs := [], Bindings := [], Etag := "", Version := 0 }

/-- The bucket policy of a bucket that has none stored yet. -/
def emptyIamPolicy : IamPolicy :=
  { InternalProto := some { Version := 0, Bindings := [], Etag := [] } }

/-- The in-memory provider. -/
def memEnv : Env Mem where
  NewCertStore := fun _ s => (.ok (), s)
  NewCA := fun s => (.ok (), s)
  CACert := fun _ => [1]
  NewServerCertPair := fun _ _ s =>
    if s.certPairFails then (.error (.raw "failed to generate private key"), s)
    else (.ok ([2], [3]), s)
  ReadFile := fun name s =>
    match s.files.lookup name with
    | some data => (.ok data, s)
    | none => (.error (.raw "no such file or directory"), s)
  WriteFile := fun name data _ s => (.ok (), { s with files := (name, data) :: s.files })
  JWTConfigFromJSON := fun json scopes => .ok { json := json, scopes := scopes }
  KmsNew := fun _ s => (.ok (), s)
  NewIamClient := fun _ s => (.ok (), s)
  StorageNewClient := fun _ s => (.ok (), s)
  KeyRingsGet := fun name s =>
    match s.keyRings.find? (fun k => decide (k.Name = name)) with
    | some k => (.ok k, s)
    | none => (.error (.raw "notFound"), s)
  KeyRingsCreate := fun parent _ keyRingId s =>
    let k : KeyRing := { Name := parent ++ "/keyRings/" ++ keyRingId, CreateTime := "t" }
    if s.keyRings.any (fun x => decide (x.Name = k.Name)) then
      (.error (.raw "alreadyExists"), s)
    else (.ok k, { s with keyRings := k :: s.keyRings })
  CryptoKeysGet := fun name s =>
    match s.cryptoKeys.find? (fun k => decide (k.Name = name)) with
    | some k => (.ok k, s)
    | none => (.error (.raw "notFound"), s)
  CryptoKeysCreate := fun parent cryptoKey cryptoKeyId s =>
    let k : CryptoKey := { cryptoKey with Name := parent ++ "/cryptoKeys/" ++ cryptoKeyId }
    if s.cryptoKeys.any (fun x => decide (x.Name = k.Name)) then
      (.error (.raw "alreadyExists"), s)
    else (.ok k, { s with cryptoKeys := k :: s.cryptoKeys })
  CryptoKeysGetIamPolicy := fun resource s =>
    (.ok ((s.keyPolicies.lookup resource).getD emptyPolicy), s)
  CryptoKeysSetIamPolicy := fun resource policy s =>
    (.ok policy, { s with keyPolicies := (resource, policy) :: s.keyPolicies })
  GetServiceAccount := fun name s =>
    match s.serviceAccounts.find?
      (fun a => decide ("projects/-/serviceAccounts/" ++ a.Email = name)) with
    | some a => (.ok a, s)
    | none => (.error (.raw "notFound"), s)
  CreateServiceAccount := fun name accountId displayName s =>
    let project := String.mk (name.data.drop 9)
    let a : ServiceAccount :=
      { Name := name ++ "/serviceAccounts/" ++ accountId, ProjectId := project,
        UniqueId := "1", Email := accountId ++ "@" ++ project ++ ".iam.gserviceaccount.com",
        DisplayName := displayName }
    if s.serviceAccounts.any (fun x => decide (x.Email = a.Email)) then
      (.error (.raw "alreadyExists"), s)
    else (.ok a, { s with serviceAccounts := a :: s.serviceAccounts })
  BucketAttrs := fun bucket s =>
    if bucket ∈ s.buckets then (.ok (), s) else (.error (.raw "bucket does not exist"), s)
  BucketCreate := fun bucket _ s =>
    if bucket ∈ s.buckets then (.error (.raw "alreadyExists"), s)
    else (.ok (), { s with buckets := bucket :: s.buckets })
  BucketIAMPolicy := fun bucket s =>
    (.ok ((s.bucketPolicies.lookup bucket).getD emptyIamPolicy), s)
  BucketIAMSetPolicy := fun bucket policy s =>
    (.ok (), { s with bucketPolicies := (bucket, policy) :: s.bucketPolicies })
  SerializerInfoForMediaType := fun mediaType =>
    if mediaType = "application/yaml" then some memEncode else none

/-- A fresh project: none of the four resources present, the key file readable. -/
def freshMem : Mem :=
  { keyRings := [], cryptoKeys := [], buckets := [], serviceAccounts := [],
    keyPolicies := [], bucketPolicies := [], files := [(SAJsonFile, [])],
    certPairFails := false }

/-- The world a run starts in: provider state `s`, no call made yet. -/
def startIn {σ : Type} (s : σ) : World σ := { st := s, trace := [] }

/-! ## Lemmas on paths -/

theorem splitSlash_ne_nil (s : List Char) : splitSlash s ≠ [] := by
  cases s with
  | nil => simp [splitSlash]
  | cons c cs =>
    unfold splitSlash
    split
    · simp
    · split <;> simp

theorem splitSlash_noSlash (s : List Char) : ∀ e ∈ splitSlash s, '/' ∉ e := by
  induction s with
  | nil => simp [splitSlash]
  | cons c cs ih =>
    unfold splitSlash
    split
    · intro e he
      rcases List.mem_cons.mp he with h | h
      · simp [h]
      · exact ih e h
    · rename_i hc
      split
      · intro e he
        simp only [List.mem_singleton] at he
        subst he
        simpa using Ne.symm hc
      · rename_i e0 es heq
        intro e he
        rw [heq] at ih
        rcases List.mem_cons.mp he with h | h
        · subst h
          have := ih e0 (List.mem_cons_self _ _)
          simp only [List.mem_cons, not_or]
          exact ⟨Ne.symm hc, this⟩
        · exact ih e (List.mem_cons_of_mem _ h)

theorem joinElems_splitSlash (s : List Char) : joinElems (splitSlash s) = s := by
  induction s with
  | nil => simp [splitSlash, joinElems, slashed]
  | cons c cs ih =>
    unfold splitSlash
    split
    · rename_i hc
      subst hc
      cases h : splitSlash cs with
      | nil => exact absurd h (splitSlash_ne_nil cs)
      | cons e es =>
        rw [h] at ih
        simp only [joinElems, slashed, List.nil_append, List.cons_append] at ih ⊢
        rw [ih]
    · split
      · rename_i heq
        exact absurd heq (splitSlash_ne_nil cs)
      · rename_i e es heq
        rw [heq] at ih
        simp only [joinElems, List.cons_append] at ih ⊢
        rw [ih]

theorem slashed_append (a b : List (List Char)) :
    slashed (a ++ b) = slashed a ++ slashed b := by
  induction a with
  | nil => simp [slashed]
  | cons e es ih => simp [slashed, ih]

theorem takeWhile_elem (e : List Char) (es : List (List Char)) (hs : '/' ∉ e) :
    (e ++ slashed es).takeWhile (fun x => x ≠ '/') = e := by
  induction e with
  | nil => cases es <;> simp [slashed]
  | cons c t ih =>
    simp only [List.mem_cons, not_or] at hs
    have hc : c ≠ '/' := Ne.symm hs.1
    have ih2 := ih hs.2
    simp only [ne_eq, decide_not] at ih2
    simp [List.takeWhile, hc, ih2]

theorem dropWhile_elem (e : List Char) (es : List (List Char)) (hs : '/' ∉ e) :
    (e ++ slashed es).dropWhile (fun x => x ≠ '/') = slashed es := by
  induction e with
  | nil => cases es <;> simp [slashed]
  | cons c t ih =>
    simp only [List.mem_cons, not_or] at hs
    have hc : c ≠ '/' := Ne.symm hs.1
    have ih2 := ih hs.2
    simp only [ne_eq, decide_not] at ih2
    simp [List.dropWhile, hc, ih2]

/-- One round of the loop on a real element copies it, after a separator when
something was written before. -/
theorem cleanLoop_elem (fuel : Nat) (e : List Char) (es : List (List Char))
    (out : List Char) (dd : Nat) (he : realElem e = true) (hs : '/' ∉ e) :
    cleanLoop false (fuel + 1) (e ++ slashed es) out dd =
      cleanLoop false fuel (slashed es)
        ((if out.length ≠ 0 then out ++ ['/'] else out) ++ e) dd := by
  have htw := takeWhile_elem e es hs
  have hdw := dropWhile_elem e es hs
  cases e with
  | nil => simp [realElem] at he
  | cons c t =>
    simp only [List.mem_cons, not_or] at hs
    have hc : c ≠ '/' := Ne.symm hs.1
    have h2 : ¬ (c = '.' ∧ (t ++ slashed es = [] ∨ (t ++ slashed es).head? = some '/')) := by
      rintro ⟨rfl, h⟩
      cases t with
      | nil => simp [realElem] at he
      | cons d u =>
        simp only [List.mem_cons, not_or] at hs
        rcases h with h | h
        · simp at h
        · simp only [List.cons_append, List.head?_cons, Option.some.injEq] at h
          exact hs.2.1 h.symm
    have h3 : ¬ (c = '.' ∧ (t ++ slashed es).head? = some '.' ∧
        ((t ++ slashed es).tail = [] ∨ (t ++ slashed es).tail.head? = some '/')) := by
      rintro ⟨rfl, h, h'⟩
      cases t with
      | nil => simp [realElem] at he
      | cons d u =>
        simp only [List.cons_append, List.head?_cons, Option.some.injEq] at h
        subst h
        cases u with
        | nil => simp [realElem] at he
        | cons x v =>
          simp only [List.mem_cons, not_or] at hs
          rcases h' with h' | h'
          · simp at h'
          · simp only [List.cons_append, List.tail_cons, List.head?_cons,
              Option.some.injEq] at h'
            exact hs.2.2.1 h'.symm
    rw [List.cons_append] at htw hdw ⊢
    simp only [cleanLoop, hc, if_false, h2, h3, htw, hdw]
    simp

theorem cleanLoop_slashed (dd : Nat) (es : List (List Char))
    (hes : ∀ e ∈ es, realElem e = true ∧ '/' ∉ e) :
    ∀ (fuel : Nat) (out : List Char), out ≠ [] → (slashed es).length < fuel →
      cleanLoop false fuel (slashed es) out dd = some (out ++ slashed es) := by
  induction es with
  | nil =>
    intro fuel out _ _
    cases fuel <;> simp [slashed, cleanLoop]
  | cons e es ih =>
    intro fuel out hout hlen
    have hE := hes e (List.mem_cons_self _ _)
    have hne : e ≠ [] := by
      intro h
      simp [h, realElem] at hE
    have hel : 0 < e.length := List.length_pos.mpr hne
    simp only [slashed, List.length_cons, List.length_append] at hlen
    obtain ⟨f, rfl⟩ : ∃ f, fuel = f + 2 := ⟨fuel - 2, by omega⟩
    have hout2 : out.length ≠ 0 := by
      intro h
      exact hout (List.length_eq_zero.mp h)
    simp only [slashed, List.cons_append, cleanLoop, if_true, List.append_eq]
    rw [cleanLoop_elem f e es out dd hE.1 hE.2]
    rw [ih (fun x hx => hes x (List.mem_cons_of_mem _ hx)) f _ (by simp [hne]) (by omega)]
    simp [hout2]

/-- The loop of `filepath.Clean` leaves a relative path of real elements as it is. -/
theorem cleanChars_joinElems (es : List (List Char)) (hne : es ≠ [])
    (hes : ∀ e ∈ es, realElem e = true ∧ '/' ∉ e) :
    cleanChars (joinElems es) = joinElems es := by
  cases es with
  | nil => exact absurd rfl hne
  | cons e es =>
    have hE := hes e (List.mem_cons_self _ _)
    cases e with
    | nil => simp [realElem] at hE
    | cons c t =>
      have hc : c ≠ '/' := by
        have := hE.2
        simp only [List.mem_cons, not_or] at this
        exact Ne.symm this.1
      have hrest := cleanLoop_slashed 0 es (fun x hx => hes x (List.mem_cons_of_mem _ hx))
      have hstep := cleanLoop_elem (t.length + (slashed es).length + 1) (c :: t) es [] 0
        hE.1 hE.2
      simp only [joinElems, cleanChars]
      have hhead : ((c :: t ++ slashed es).head? = some '/') = False := by
        simp [hc]
      simp only [List.cons_append, reduceCtorEq, if_false, List.head?_cons,
        Option.some.injEq, hc, decide_False, Bool.false_eq_true, List.length_cons,
        List.length_append] at hstep ⊢
      rw [hstep]
      rw [hrest _ _ (by simp) (by omega)]
      simp

theorem slashed_eq_cons (es : List (List Char)) (hne : es ≠ []) :
    slashed es = '/' :: joinElems es := by
  cases es with
  | nil => exact absurd rfl hne
  | cons e es => simp [slashed, joinElems]

theorem joinElems_append (a b : List (List Char)) (ha : a ≠ []) (hb : b ≠ []) :
    joinElems (a ++ b) = joinElems a ++ '/' :: joinElems b := by
  cases a with
  | nil => exact absurd rfl ha
  | cons e es =>
    simp only [List.cons_append, joinElems, slashed_append, slashed_eq_cons b hb,
      List.append_assoc]

/-- The bytes of the looked-up key ring name, element by element. -/
theorem keyRingLookupName_data (p l k : String) :
    (keyRingLookupName p l k).data =
      joinElems ("projects".data :: (splitSlash p.data ++ "locations".data ::
        (splitSlash l.data ++ "keyRings".data :: splitSlash k.data))) := by
  have h1 : ∀ (a : List Char) (b : List (List Char)), b ≠ [] →
      joinElems (a :: b) = a ++ '/' :: joinElems b := by
    intro a b hb
    simp [joinElems, slashed_eq_cons b hb]
  rw [h1 _ _ (by simp [splitSlash_ne_nil]),
    joinElems_append _ _ (splitSlash_ne_nil _) (by simp),
    h1 _ _ (by simp [splitSlash_ne_nil]),
    joinElems_append _ _ (splitSlash_ne_nil _) (by simp),
    h1 _ _ (splitSlash_ne_nil _)]
  simp only [joinElems_splitSlash, keyRingLookupName, String.data_append]
  simp

theorem dropWhile_length_le (p : Char → Bool) (l : List Char) :
    (l.dropWhile p).length ≤ l.length := by
  induction l with
  | nil => simp
  | cons c t ih =>
    simp only [List.dropWhile]
    split
    · simp only [List.length_cons]; omega
    · simp

/-- Fuel above the length of the path is never used up: the loop ends with a result. -/
theorem cleanLoop_isSome (rooted : Bool) :
    ∀ (fuel : Nat) (path : List Char) (out : List Char) (dd : Nat),
      path.length < fuel → (cleanLoop rooted fuel path out dd).isSome = true := by
  intro fuel
  induction fuel with
  | zero => intro path out dd h; omega
  | succ fuel ih =>
    intro path out dd h
    cases path with
    | nil => simp [cleanLoop]
    | cons c rest =>
      simp only [List.length_cons] at h
      have ht : rest.tail.length ≤ rest.length := by simp
      have hd : ¬ c = '/' →
          ((c :: rest).dropWhile (fun x => decide (x ≠ '/'))).length ≤ rest.length := by
        intro hc
        have : (c :: rest).dropWhile (fun x => decide (x ≠ '/')) =
            rest.dropWhile (fun x => decide (x ≠ '/')) := by
          simp [List.dropWhile, hc]
        rw [this]
        exact dropWhile_length_le _ _
      simp only [cleanLoop]
      split_ifs with hc <;>
        first
        | exact ih _ _ _ (by omega)
        | exact ih _ _ _ (by have := hd hc; omega)

/-- Any two amounts of fuel above the length of the path give the same result. -/
theorem cleanLoop_fuel (rooted : Bool) :
    ∀ (f1 : Nat) (path : List Char) (f2 : Nat) (out : List Char) (dd : Nat),
      path.length < f1 → path.length < f2 →
      cleanLoop rooted f1 path out dd = cleanLoop rooted f2 path out dd := by
  intro f1
  induction f1 with
  | zero => intro path f2 out dd h; omega
  | succ f1 ih =>
    intro path f2 out dd h1 h2
    cases f2 with
    | zero => omega
    | succ f2 =>
      cases path with
      | nil => simp [cleanLoop]
      | cons c rest =>
        simp only [List.length_cons] at h1 h2
        have ht : rest.tail.length ≤ rest.length := by simp
        have hd : ¬ c = '/' →
            ((c :: rest).dropWhile (fun x => decide (x ≠ '/'))).length ≤ rest.length := by
          intro hc
          have : (c :: rest).dropWhile (fun x => decide (x ≠ '/')) =
              rest.dropWhile (fun x => decide (x ≠ '/')) := by
            simp [List.dropWhile, hc]
          rw [this]
          exact dropWhile_length_le _ _
        simp only [cleanLoop]
        split_ifs with hc <;>
          first
          | exact ih _ _ _ _ (by omega) (by omega)
          | exact ih _ _ _ _ (by have := hd hc; omega) (by have := hd hc; omega)

/-- The fuel `filepath.Clean` is run with is enough for every path. -/
theorem cleanChars_fuel (path : List Char) (rooted : Bool) (out : List Char) (dd : Nat) :
    (cleanLoop rooted (path.length + 1) (if rooted then path.tail else path) out dd).isSome =
      true := by
  apply cleanLoop_isSome
  cases rooted
  · simp
  · simp only [if_true, List.length_tail]
    omega

theorem slashed_head (es : List (List Char)) :
    slashed es = [] ∨ (slashed es).head? = some '/' := by
  cases es <;> simp [slashed]

theorem backtrackRev_suffix (dd : Nat) (rest : List Char) :
    ∀ c : Char, backtrackRev dd c rest <:+ rest := by
  induction rest with
  | nil => intro c; simp [backtrackRev]
  | cons x xs ih =>
    intro c
    unfold backtrackRev
    split
    · exact (ih x).trans (List.suffix_cons x xs)
    · exact List.suffix_refl _

theorem backtrack_count (dd : Nat) (out : List Char) :
    elemCount (backtrack dd out) ≤ elemCount out := by
  unfold backtrack
  cases h : out.reverse with
  | nil => simp [elemCount]
  | cons c rest =>
    have hout : out = rest.reverse ++ [c] := by
      have := congrArg List.reverse h
      simpa using this
    have hsuf := backtrackRev_suffix dd rest c
    have hsub : (backtrackRev dd c rest).reverse.Sublist out := by
      rw [hout]
      exact (List.reverse_sublist.mpr hsuf.sublist).trans (List.sublist_append_left _ _)
    have hcnt := hsub.count_le '/'
    have hne : out ≠ [] := by rw [hout]; simp
    simp only [elemCount, hne, if_false]
    split <;> omega

theorem elemCount_append_elem (out e : List Char) (hs : '/' ∉ e) (hne : e ≠ []) :
    elemCount ((if out.length ≠ 0 then out ++ ['/'] else out) ++ e) = elemCount out + 1 := by
  have hc : e.count '/' = 0 := List.count_eq_zero.mpr hs
  by_cases ho : out = []
  · subst ho
    simp [elemCount, hc, hne]
  · have hl : out.length ≠ 0 := fun h => ho (List.length_eq_zero.mp h)
    simp [elemCount, hc, hne, ho, hl, List.count_append]

theorem realElem_false (e : List Char) (h : ¬ realElem e = true) :
    e = [] ∨ e = ['.'] ∨ e = ['.', '.'] := by
  simp only [realElem, Bool.and_eq_true, decide_eq_true_eq, not_and, ne_eq] at h
  by_cases h1 : e = []
  · exact Or.inl h1
  · by_cases h2 : e = ['.']
    · exact Or.inr (Or.inl h2)
    · exact Or.inr (Or.inr (by simpa using h ⟨h1, h2⟩))

/-- One element of the path, with the separator before it: the loop goes on with a
buffer of at most one element more, and from a buffer that is not empty and has no
leading `..` only a real element adds one. -/
theorem cleanLoop_step (e : List Char) (es : List (List Char)) (out : List Char)
    (dd fuel : Nat) (r : List Char) (hs : '/' ∉ e)
    (h : cleanLoop false fuel (slashed (e :: es)) out dd = some r) :
    ∃ fuel1 out1 dd1, cleanLoop false fuel1 (slashed es) out1 dd1 = some r ∧
      elemCount out1 ≤ elemCount out + 1 ∧
      (dd = 0 → out ≠ [] →
        (realElem e = true ∧ out1 ≠ [] ∧ dd1 = 0 ∧ elemCount out1 = elemCount out + 1) ∨
        (¬ realElem e = true ∧ elemCount out1 ≤ elemCount out)) := by
  cases fuel with
  | zero => simp [slashed, cleanLoop] at h
  | succ f =>
    simp only [slashed, List.cons_append, cleanLoop, if_true, List.append_eq] at h
    by_cases hr : realElem e = true
    · have hne : e ≠ [] := by
        intro h0
        simp [h0, realElem] at hr
      cases f with
      | zero =>
        cases e with
        | nil => exact absurd rfl hne
        | cons c t => simp [cleanLoop] at h
      | succ g =>
        rw [cleanLoop_elem g e es out dd hr hs] at h
        exact ⟨g, _, dd, h, le_of_eq (elemCount_append_elem out e hs hne),
          fun hdd _ => Or.inl ⟨hr, by simp [hne], hdd, elemCount_append_elem out e hs hne⟩⟩
    · rcases realElem_false e hr with rfl | rfl | rfl
      · exact ⟨f, out, dd, by simpa using h, by omega, fun _ _ => Or.inr ⟨hr, le_refl _⟩⟩
      · cases f with
        | zero => simp [cleanLoop] at h
        | succ g =>
          have h1 : cleanLoop false (g + 1) ('.' :: slashed es) out dd = some r := h
          have hc : (slashed es = [] ∨ (slashed es).head? = some '/') := slashed_head es
          simp only [cleanLoop, show ¬ ('.' = '/') by decide, if_false, hc, and_self,
            if_true] at h1
          exact ⟨g, out, dd, h1, by omega, fun _ _ => Or.inr ⟨hr, le_refl _⟩⟩
      · cases f with
        | zero => simp [cleanLoop] at h
        | succ g =>
          have h1 : cleanLoop false (g + 1) ('.' :: '.' :: slashed es) out dd = some r := h
          have hc : (slashed es = [] ∨ (slashed es).head? = some '/') := slashed_head es
          have hpush : elemCount ((if out.length > 0 then out ++ ['/'] else out) ++ ['.', '.']) ≤
              elemCount out + 1 := by
            by_cases ho : out = []
            · subst ho
              simp [elemCount]
            · have hl0 : out.length > 0 := List.length_pos.mpr ho
              simp [elemCount, ho, hl0, List.count_append]
          have e3 : (slashed es = [] ∨ (slashed es).head? = some '/') = True := eq_true hc
          simp only [cleanLoop, show ¬ ('.' = '/') by decide, if_false, List.head?_cons,
            List.tail_cons, e3, reduceCtorEq, Option.some.injEq, or_self, and_false, and_true,
            if_true, Bool.not_false] at h1
          by_cases hl : out.length > dd
          · simp only [hl, if_true] at h1
            exact ⟨g, _, dd, h1, le_trans (backtrack_count dd out) (by omega),
              fun _ _ => Or.inr ⟨hr, backtrack_count dd out⟩⟩
          · simp only [hl, if_false] at h1
            refine ⟨g, _, _, h1, hpush, ?_⟩
            intro hdd ho
            have hl0 : out.length > 0 := List.length_pos.mpr ho
            omega

theorem count_slashed (es : List (List Char)) (hes : ∀ e ∈ es, '/' ∉ e) :
    (slashed es).count '/' = es.length := by
  induction es with
  | nil => simp [slashed]
  | cons e es ih =>
    have h0 : e.count '/' = 0 := List.count_eq_zero.mpr (hes e (List.mem_cons_self _ _))
    have h1 := ih (fun x hx => hes x (List.mem_cons_of_mem _ hx))
    simp only [slashed, List.cons_append, List.count_cons_self, List.count_append, h0, h1,
      List.length_cons]
    omega

/-- The result of the loop has at most one element for each element read, and exactly
that many, from a buffer that is not empty and has no leading `..`, only when every
element read is a real one. -/
theorem cleanLoop_count (es : List (List Char)) (hes : ∀ e ∈ es, '/' ∉ e) :
    ∀ (fuel : Nat) (out : List Char) (dd : Nat) (r : List Char),
      cleanLoop false fuel (slashed es) out dd = some r →
      elemCount r ≤ elemCount out + es.length ∧
      (elemCount r = elemCount out + es.length → dd = 0 → out ≠ [] →
        ∀ e ∈ es, realElem e = true) := by
  induction es with
  | nil =>
    intro fuel out dd r h
    have hr : r = out := by
      cases fuel <;> simpa [slashed, cleanLoop] using h.symm
    subst hr
    simp
  | cons e es ih =>
    intro fuel out dd r h
    obtain ⟨f1, out1, dd1, h1, hle, hcase⟩ :=
      cleanLoop_step e es out dd fuel r (hes e (List.mem_cons_self _ _)) h
    obtain ⟨ih1, ih2⟩ := ih (fun x hx => hes x (List.mem_cons_of_mem _ hx)) f1 out1 dd1 r h1
    simp only [List.length_cons]
    refine ⟨by omega, ?_⟩
    intro heq hdd ho
    rcases hcase hdd ho with ⟨hr, hne1, hdd1, hc1⟩ | ⟨_, hc1⟩
    · intro x hx
      rcases List.mem_cons.mp hx with rfl | hx
      · exact hr
      · exact ih2 (by omega) hdd1 hne1 x hx
    · omega

/-- A relative path that starts with a real element and that `filepath.Clean` leaves
as it is has only real elements. -/
theorem cleanChars_fixed (e1 : List Char) (es : List (List Char))
    (h1 : realElem e1 = true) (hs1 : '/' ∉ e1) (hes : ∀ e ∈ es, '/' ∉ e)
    (h : cleanChars (joinElems (e1 :: es)) = joinElems (e1 :: es)) :
    ∀ e ∈ es, realElem e = true := by
  cases e1 with
  | nil => simp [realElem] at h1
  | cons c t =>
    have hc : c ≠ '/' := by
      simp only [List.mem_cons, not_or] at hs1
      exact Ne.symm hs1.1
    have hstep := cleanLoop_elem (t.length + (slashed es).length + 1) (c :: t) es [] 0 h1 hs1
    simp only [joinElems, cleanChars, List.cons_append, reduceCtorEq, if_false,
      List.head?_cons, Option.some.injEq, hc, decide_False, Bool.false_eq_true,
      List.length_cons, List.length_append] at hstep h
    rw [hstep] at h
    simp only [List.length_nil, ne_eq, not_true_eq_false, if_false, List.nil_append] at h
    cases hr : cleanLoop false (t.length + (slashed es).length + 1) (slashed es) (c :: t) 0 with
    | none => simp [hr] at h
    | some r =>
      simp only [hr] at h
      obtain ⟨_, hall⟩ := cleanLoop_count es hes _ _ _ _ hr
      have hr2 : r = c :: (t ++ slashed es) := by
        by_cases h0 : r.length = 0
        · simp only [h0, if_true, List.cons.injEq, List.nil_eq, List.append_eq_nil] at h
          obtain ⟨rfl, rfl, _⟩ := h
          simp [realElem] at h1
        · simpa [h0] using h
      apply hall _ rfl (by simp)
      have ht : (t.count '/') = 0 := by
        apply List.count_eq_zero.mpr
        intro hmem
        exact hs1 (List.mem_cons_of_mem _ hmem)
      have hcc : ¬ (c = '/') := hc
      rw [hr2]
      simp [elemCount, List.count_cons, List.count_append, count_slashed es hes, ht, hcc]
      omega

/-! ## Lemmas on traces and steps -/

section Steps
variable {σ : Type}

/-- The key ring step when the lookup succeeds. -/
theorem ensureKeyRing_of_ok (env : Env σ) (w : World σ) (p l n : String) (k : KeyRing)
    (h : (env.KeyRingsGet (keyRingLookupName p l n) w.st).1 = .ok k) :
    IsKeyRingExists env p l n w =
        ({ val := some k, found := true, err := none },
          { st := (env.KeyRingsGet (keyRingLookupName p l n) w.st).2,
            trace := w.trace ++ [.KeyRingsGet (keyRingLookupName p l n)] }) ∧
      ensureKeyRing env p l n w =
        (.ok (some k),
          { st := (env.KeyRingsGet (keyRingLookupName p l n) w.st).2,
            trace := w.trace ++ [.KeyRingsGet (keyRingLookupName p l n)] }) := by
  simp [ensureKeyRing, IsKeyRingExists, World.call, h]

/-- The key ring step when the lookup fails. -/
theorem ensureKeyRing_of_error (env : Env σ) (w : World σ) (p l n : String) (e : GoError)
    (h : (env.KeyRingsGet (keyRingLookupName p l n) w.st).1 = .error e) :
    IsKeyRingExists env p l n w =
        ({ val := none, found := false, err := some e },
          { st := (env.KeyRingsGet (keyRingLookupName p l n) w.st).2,
            trace := w.trace ++ [.KeyRingsGet (keyRingLookupName p l n)] }) ∧
      (ensureKeyRing env p l n w).2 =
        { st := (env.KeyRingsCreate (keyRingParent p l)
              { Name := keyRingCreateName p l n, CreateTime := "" } n
              (env.KeyRingsGet (keyRingLookupName p l n) w.st).2).2,
          trace := w.trace ++ [.KeyRingsGet (keyRingLookupName p l n),
            .KeyRingsCreate (keyRingParent p l)
              { Name := keyRingCreateName p l n, CreateTime := "" } n] } ∧
      ensureKeyRing env p l n w =
        ((match (CreateKeyRing env p l n (IsKeyRingExists env p l n w).2).1 with
          | .error err => .error (.fatal err)
          | .ok k => .ok (some k)),
         (CreateKeyRing env p l n (IsKeyRingExists env p l n w).2).2) := by
  simp only [ensureKeyRing, IsKeyRingExists, CreateKeyRing, World.call, h]
  cases (env.KeyRingsCreate (keyRingParent p l)
      { Name := keyRingCreateName p l n, CreateTime := "" } n
      (env.KeyRingsGet (keyRingLookupName p l n) w.st).2).1 <;> simp

/-- The crypto key step when the lookup succeeds. -/
theorem ensureKey_of_ok (env : Env σ) (w : World σ) (r n : String) (k : CryptoKey)
    (h : (env.CryptoKeysGet (r ++ "/cryptoKeys/" ++ n) w.st).1 = .ok k) :
    IsKeyExists env r n w =
        ({ val := some k, found := true, err := none },
          { st := (env.CryptoKeysGet (r ++ "/cryptoKeys/" ++ n) w.st).2,
            trace := w.trace ++ [.CryptoKeysGet (r ++ "/cryptoKeys/" ++ n)] }) ∧
      ensureKey env r n w =
        (.ok (some k),
          { st := (env.CryptoKeysGet (r ++ "/cryptoKeys/" ++ n) w.st).2,
            trace := w.trace ++ [.CryptoKeysGet (r ++ "/cryptoKeys/" ++ n)] }) := by
  simp [ensureKey, IsKeyExists, World.call, h]

/-- The crypto key step when the lookup fails. -/
theorem ensureKey_of_error (env : Env σ) (w : World σ) (r n : String) (e : GoError)
    (h : (env.CryptoKeysGet (r ++ "/cryptoKeys/" ++ n) w.st).1 = .error e) :
    IsKeyExists env r n w =
        ({ val := none, found := false, err := some e },
          { st := (env.CryptoKeysGet (r ++ "/cryptoKeys/" ++ n) w.st).2,
            trace := w.trace ++ [.CryptoKeysGet (r ++ "/cryptoKeys/" ++ n)] }) ∧
      (ensureKey env r n w).2 =
        { st := (env.CryptoKeysCreate r { Name := "", Purpose := "ENCRYPT_DECRYPT" } n
              (env.CryptoKeysGet (r ++ "/cryptoKeys/" ++ n) w.st).2).2,
          trace := w.trace ++ [.CryptoKeysGet (r ++ "/cryptoKeys/" ++ n),
            .CryptoKeysCreate r { Name := "", Purpose := "ENCRYPT_DECRYPT" } n] } ∧
      ensureKey env r n w =
        ((match (CreateKey env r n (IsKeyExists env r n w).2).1 with
          | .error err => .error (.fatal err)
          | .ok k => .ok (some k)),
         (CreateKey env r n (IsKeyExists env r n w).2).2) := by
  simp only [ensureKey, IsKeyExists, CreateKey, World.call, h]
  cases (env.CryptoKeysCreate r { Name := "", Purpose := "ENCRYPT_DECRYPT" } n
      (env.CryptoKeysGet (r ++ "/cryptoKeys/" ++ n) w.st).2).1 <;> simp

/-- The bucket step when the lookup succeeds. -/
theorem ensureBucket_of_ok (env : Env σ) (w : World σ) (p b : String)
    (h : (env.BucketAttrs b w.st).1 = .ok ()) :
    IsCloudStorageExists env b w =
        ((true, none),
          { st := (env.BucketAttrs b w.st).2, trace := w.trace ++ [.BucketAttrs b] }) ∧
      ensureBucket env p b w =
        (.ok (),
          { st := (env.BucketAttrs b w.st).2, trace := w.trace ++ [.BucketAttrs b] }) := by
  simp [ensureBucket, IsCloudStorageExists, World.call, h]

/-- The bucket step when the lookup fails. -/
theorem ensureBucket_of_error (env : Env σ) (w : World σ) (p b : String) (e : GoError)
    (h : (env.BucketAttrs b w.st).1 = .error e) :
    IsCloudStorageExists env b w =
        ((false, some e),
          { st := (env.BucketAttrs b w.st).2, trace := w.trace ++ [.BucketAttrs b] }) ∧
      (ensureBucket env p b w).2 =
        { st := (env.BucketCreate b p (env.BucketAttrs b w.st).2).2,
          trace := w.trace ++ [.BucketAttrs b, .BucketCreate b p] } ∧
      ensureBucket env p b w =
        ((match (CreateCloudStorage env p b (IsCloudStorageExists env b w).2).1 with
          | some err => .error (.fatal err)
          | none => .ok ()),
         (CreateCloudStorage env p b (IsCloudStorageExists env b w).2).2) := by
  simp only [ensureBucket, IsCloudStorageExists, CreateCloudStorage, World.call, h]
  cases (env.BucketCreate b p (env.BucketAttrs b w.st).2).1 <;> simp

/-- The service account step when the lookup succeeds. -/
theorem ensureServiceAccount_of_ok (env : Env σ) (w : World σ) (p n i : String)
    (a : ServiceAccount)
    (h : (env.GetServiceAccount
      ("projects/-/serviceAccounts/" ++ serviceAccountEmail i p) w.st).1 = .ok a) :
    IsIAMServiceAccountExists env p (serviceAccountEmail i p) w =
        ({ val := some a, found := true, err := none },
          { st := (env.GetServiceAccount
              ("projects/-/serviceAccounts/" ++ serviceAccountEmail i p) w.st).2,
            trace := w.trace ++ [.GetServiceAccount
              ("projects/-/serviceAccounts/" ++ serviceAccountEmail i p)] }) ∧
      ensureServiceAccount env p n i w =
        (.ok (some a),
          { st := (env.GetServiceAccount
              ("projects/-/serviceAccounts/" ++ serviceAccountEmail i p) w.st).2,
            trace := w.trace ++ [.GetServiceAccount
              ("projects/-/serviceAccounts/" ++ serviceAccountEmail i p)] }) := by
  simp [ensureServiceAccount, IsIAMServiceAccountExists, World.call, h]

/-- The service account step when the lookup fails. -/
theorem ensureServiceAccount_of_error (env : Env σ) (w : World σ) (p n i : String)
    (e : GoError)
    (h : (env.GetServiceAccount
      ("projects/-/serviceAccounts/" ++ serviceAccountEmail i p) w.st).1 = .error e) :
    IsIAMServiceAccountExists env p (serviceAccountEmail i p) w =
        ({ val := none, found := false, err := some e },
          { st := (env.GetServiceAccount
              ("projects/-/serviceAccounts/" ++ serviceAccountEmail i p) w.st).2,
            trace := w.trace ++ [.GetServiceAccount
              ("projects/-/serviceAccounts/" ++ serviceAccountEmail i p)] }) ∧
      (ensureServiceAccount env p n i w).2 =
        { st := (env.CreateServiceAccount (Join ["projects", p]) i n
              (env.GetServiceAccount
                ("projects/-/serviceAccounts/" ++ serviceAccountEmail i p) w.st).2).2,
          trace := w.trace ++ [.GetServiceAccount
              ("projects/-/serviceAccounts/" ++ serviceAccountEmail i p),
            .CreateServiceAccount (Join ["projects", p]) i n] } ∧
      ensureServiceAccount env p n i w =
        ((match (CreateIAMServiceAccount env p n i
              (IsIAMServiceAccountExists env p (serviceAccountEmail i p) w).2).1 with
          | .error err => .error (.fatal err)
          | .ok a => .ok (some a)),
         (CreateIAMServiceAccount env p n i
            (IsIAMServiceAccountExists env p (serviceAccountEmail i p) w).2).2) := by
  simp only [ensureServiceAccount, IsIAMServiceAccountExists, CreateIAMServiceAccount,
    World.call, h]
  cases (env.CreateServiceAccount (Join ["projects", p]) i n
      (env.GetServiceAccount
        ("projects/-/serviceAccounts/" ++ serviceAccountEmail i p) w.st).2).1 <;> simp

end Steps

/-! ## Lemmas on the in-memory provider -/

/-- In the in-memory provider a created key ring is found afterwards. -/
theorem memEnv_ring_found (p l n : String) (w0 w1 : World Mem) (k : KeyRing)
    (h : CreateKeyRing memEnv p l n w0 = (.ok k, w1)) :
    (IsKeyRingExists memEnv p l n w1).1.found = true := by
  simp only [CreateKeyRing, World.call, memEnv] at h
  by_cases hc : (w0.st.keyRings.any
      fun x => decide (x.Name = keyRingParent p l ++ "/keyRings/" ++ n)) = true
  · simp [hc] at h
  · simp only [hc, if_false, Prod.mk.injEq, Except.ok.injEq] at h
    obtain ⟨-, rfl⟩ := h
    simp [IsKeyRingExists, World.call, memEnv, List.find?, keyRingParent, keyRingLookupName]

/-- In the in-memory provider a created crypto key is found afterwards. -/
theorem memEnv_key_found (r n : String) (w0 w1 : World Mem) (k : CryptoKey)
    (h : CreateKey memEnv r n w0 = (.ok k, w1)) :
    (IsKeyExists memEnv r n w1).1.found = true := by
  simp only [CreateKey, World.call, memEnv] at h
  by_cases hc : (w0.st.cryptoKeys.any
      fun x => decide (x.Name = r ++ "/cryptoKeys/" ++ n)) = true
  · simp [hc] at h
  · simp only [hc, if_false, Prod.mk.injEq, Except.ok.injEq] at h
    obtain ⟨-, rfl⟩ := h
    simp [IsKeyExists, World.call, memEnv, List.find?]

/-- In the in-memory provider a created bucket is found afterwards. -/
theorem memEnv_bucket_found (p b : String) (w0 w1 : World Mem)
    (h : CreateCloudStorage memEnv p b w0 = (none, w1)) :
    (IsCloudStorageExists memEnv b w1).1.1 = true := by
  simp only [CreateCloudStorage, World.call, memEnv] at h
  by_cases hc : b ∈ w0.st.buckets
  · simp [hc] at h
  · simp only [hc, if_false, Prod.mk.injEq] at h
    obtain ⟨-, rfl⟩ := h
    simp [IsCloudStorageExists, World.call, memEnv]

/-- In the in-memory provider a created service account is found afterwards. -/
theorem memEnv_account_found (n : String) (w0 w1 : World Mem) (a : ServiceAccount)
    (h : CreateIAMServiceAccount memEnv ProjectID n ServiceAccountID w0 = (.ok a, w1)) :
    (IsIAMServiceAccountExists memEnv ProjectID
      (serviceAccountEmail ServiceAccountID ProjectID) w1).1.found = true := by
  have hE : ServiceAccountID ++ "@" ++ String.mk ((Join ["projects", ProjectID]).data.drop 9)
      ++ ".iam.gserviceaccount.com" = serviceAccountEmail ServiceAccountID ProjectID := by
    decide
  simp only [CreateIAMServiceAccount, World.call, memEnv, hE] at h
  by_cases hc : (w0.st.serviceAccounts.any
      fun x => decide (x.Email = serviceAccountEmail ServiceAccountID ProjectID)) = true
  · simp [hc] at h
  · simp only [hc, if_false, Prod.mk.injEq, Except.ok.injEq] at h
    obtain ⟨-, rfl⟩ := h
    simp [IsIAMServiceAccountExists, World.call, memEnv, List.find?]



/-! ## Lemmas on `iam.Policy.Add` -/

theorem indexOfMember_neg (m : String) (ms : List String) :
    ∀ i : Int, 0 ≤ i → (indexOfMember m ms i < 0 ↔ m ∉ ms) := by
  induction ms with
  | nil => intro i _; simp [indexOfMember]
  | cons mm rest ih =>
    intro i hi
    unfold indexOfMember
    by_cases h : mm = m
    · subst h
      simp only [if_true, List.mem_cons, true_or, not_true_eq_false, iff_false, not_lt]
      exact hi
    · have h' : ¬ m = mm := fun h0 => h h0.symm
      simp only [h, if_false, List.mem_cons, h', false_or]
      exact ih (i + 1) (by omega)

theorem memberIndex_neg (m : String) (b : Binding) :
    memberIndex m (some b) < 0 ↔ m ∉ b.Members := by
  simp only [memberIndex]
  exact indexOfMember_neg m b.Members 0 (le_refl 0)

/-- The index-based update of `Add` is the recursion `addTo`. -/
theorem addTo_eq (m r : String) (bs : List Binding) :
    addTo m r bs =
      match bindingOf r bs with
      | none => bs ++ [{ Role := r, Members := [m] }]
      | some ib =>
        if memberIndex m (some ib.2) < 0 then
          bs.set ib.1 { ib.2 with Members := ib.2.Members ++ [m] }
        else bs := by
  induction bs with
  | nil => simp [addTo, bindingOf]
  | cons b bs ih =>
    unfold addTo bindingOf
    by_cases hb : b.Role = r
    · simp only [hb, if_true]
      by_cases hm : m ∈ b.Members
      · have : ¬ memberIndex m (some b) < 0 := by
          rw [memberIndex_neg]; simpa using hm
        simp [hm, this]
      · have : memberIndex m (some b) < 0 := by
          rw [memberIndex_neg]; exact hm
        simp [hm, this]
    · simp only [hb, if_false]
      rw [ih]
      cases hbo : bindingOf r bs with
      | none => simp
      | some ib =>
        simp only [Option.map_some']
        by_cases hlt : memberIndex m (some ib.2) < 0
        · simp [hlt]
        · simp [hlt]

theorem Add_eq (p : IamPolicy) (m r : String) :
    p.Add m r =
      { InternalProto := some
          { protoOf p with Bindings := addTo m r (protoOf p).Bindings } } := by
  cases p with
  | mk ip =>
    cases ip with
    | none => simp [IamPolicy.Add, IamPolicy.binding, protoOf, addTo]
    | some proto =>
      cases proto with
      | mk v bs e =>
        simp only [IamPolicy.Add, IamPolicy.binding, protoOf, Option.getD_some, addTo_eq]
        cases hbo : bindingOf r bs with
        | none => simp
        | some ib =>
          simp only
          by_cases hlt : memberIndex m (some ib.2) < 0
          · simp [hlt]
          · simp [hlt]

theorem addTo_idem (m r : String) (bs : List Binding) :
    addTo m r (addTo m r bs) = addTo m r bs := by
  induction bs with
  | nil => simp [addTo]
  | cons b bs ih =>
    by_cases hb : b.Role = r
    · by_cases hm : m ∈ b.Members
      · simp [addTo, hb, hm]
      · simp [addTo, hb, hm]
    · simp [addTo, hb, ih]

theorem addTo_fixed (m r1 r2 : String) (bs : List Binding) (h : addTo m r1 bs = bs) :
    addTo m r1 (addTo m r2 bs) = addTo m r2 bs := by
  induction bs with
  | nil => simp [addTo] at h
  | cons b bs ih =>
    by_cases hb1 : b.Role = r1
    · have hm : m ∈ b.Members := by
        by_contra hm
        simp only [addTo, hb1, if_true, hm, if_false, List.cons.injEq, and_true] at h
        have := congrArg (fun x => x.Members.length) h
        simp at this
      by_cases hb2 : b.Role = r2
      · simp [addTo, hb1, hb2, hm, ← hb2]
      · have h12 : ¬ r1 = r2 := fun h0 => hb2 (hb1.trans h0)
        simp [addTo, hb1, hm, h12]
    · have h' : addTo m r1 bs = bs := by
        simpa [addTo, hb1] using h
      by_cases hb2 : b.Role = r2
      · by_cases hm : m ∈ b.Members
        · simp [addTo, hb1, hb2, hm, h']
        · simp [addTo, hb1, hb2, hm, h']
      · simp [addTo, hb1, hb2, ih h']

theorem membersOf_addTo (m r r1 : String) (bs : List Binding) :
    membersOf r1 (addTo m r bs) =
      if r1 = r then
        (if m ∈ membersOf r bs then membersOf r bs else membersOf r bs ++ [m])
      else membersOf r1 bs := by
  induction bs with
  | nil =>
    by_cases h : r1 = r
    · subst h; simp [membersOf, addTo, bindingOf]
    · have h' : ¬ r = r1 := fun h0 => h h0.symm
      simp [membersOf, addTo, bindingOf, h, h']
  | cons b bs ih =>
    by_cases hb : b.Role = r
    · by_cases hm : m ∈ b.Members
      · by_cases h : r1 = r
        · subst h; simp [membersOf, addTo, bindingOf, hb, hm]
        · simp [membersOf, addTo, bindingOf, hb, hm, h]
      · by_cases h : r1 = r
        · subst h; simp [membersOf, addTo, bindingOf, hb, hm]
        · have h' : ¬ r = r1 := fun h0 => h h0.symm
          simp [membersOf, addTo, bindingOf, hb, hm, h, h']
    · by_cases hb1 : b.Role = r1
      · have h : ¬ r1 = r := fun h0 => hb (hb1.trans h0)
        simp [membersOf, addTo, bindingOf, hb, hb1, h]
      · have key : membersOf r1 (b :: addTo m r bs) = membersOf r1 (addTo m r bs) := by
          simp only [membersOf, bindingOf, hb1, if_false]
          cases bindingOf r1 (addTo m r bs) <;> simp
        have key2 : membersOf r1 (b :: bs) = membersOf r1 bs := by
          simp only [membersOf, bindingOf, hb1, if_false]
          cases bindingOf r1 bs <;> simp
        have key3 : membersOf r (b :: bs) = membersOf r bs := by
          simp only [membersOf, bindingOf, hb, if_false]
          cases bindingOf r bs <;> simp
        simp only [addTo, hb, if_false]
        rw [key, key2, key3, ih]


theorem Members_eq (p : IamPolicy) (r : String) :
    p.Members r = membersOf r (protoOf p).Bindings := by
  cases p with
  | mk ip =>
    cases ip with
    | none => simp [IamPolicy.Members, IamPolicy.binding, membersOf, protoOf, bindingOf]
    | some proto => simp [IamPolicy.Members, IamPolicy.binding, membersOf, protoOf]

theorem HasRole_iff (p : IamPolicy) (m r : String) :
    p.HasRole m r = true ↔ m ∈ p.Members r := by
  simp only [IamPolicy.HasRole, IamPolicy.Members, decide_eq_true_eq]
  cases h : p.binding r with
  | none => simp [memberIndex]
  | some ib =>
    have := memberIndex_neg m ib.2
    simp only [Option.map_some', ge_iff_le]
    constructor
    · intro h0
      by_contra hm
      exact absurd (this.mpr hm) (by omega)
    · intro hm
      by_contra h0
      exact (this.mp (by omega)) hm

theorem Members_Add (p : IamPolicy) (m r r1 : String) :
    (p.Add m r).Members r1 =
      if r1 = r then (if m ∈ p.Members r then p.Members r else p.Members r ++ [m])
      else p.Members r1 := by
  rw [Members_eq, Members_eq, Members_eq, Add_eq]
  simp only [protoOf, Option.getD_some]
  exact membersOf_addTo m r r1 _

theorem bucketGrant_eq (e : String) (p : IamPolicy) :
    bucketGrant e p =
      { InternalProto := some
          { protoOf p with
            Bindings := addTo ("serviceAccount:" ++ e) "roles/storage.legacyBucketReader"
              (addTo ("serviceAccount:" ++ e) "roles/storage.objectAdmin"
                (protoOf p).Bindings) } } := by
  simp only [bucketGrant, Add_eq, protoOf, Option.getD_some]

/-- Granting twice is granting once. -/
theorem bucketGrant_idem (e : String) (p : IamPolicy) :
    bucketGrant e (bucketGrant e p) = bucketGrant e p := by
  rw [bucketGrant_eq e (bucketGrant e p), bucketGrant_eq e p]
  simp only [protoOf, Option.getD_some]
  have h1 := addTo_idem ("serviceAccount:" ++ e) "roles/storage.objectAdmin"
    (p.InternalProto.getD { Version := 0, Bindings := [], Etag := [] }).Bindings
  have h2 := addTo_fixed ("serviceAccount:" ++ e) "roles/storage.objectAdmin"
    "roles/storage.legacyBucketReader" _ h1
  rw [h2, addTo_idem]


/-! ## Lemmas on `GenerateYmals` -/

theorem joinDocs_cons (d : Bytes) (ds : List Bytes) : joinDocs (d :: ds) = d ++ sepDocs ds := by
  induction ds generalizing d with
  | nil => simp [joinDocs, sepDocs]
  | cons d1 ds ih => simp [joinDocs, sepDocs, ih d1, List.append_assoc]

theorem encodeLoop_ok (enc : Object → Except GoError Bytes) (objects : List Object) :
    ∀ (docs : List Bytes) (i : Nat) (buf : Bytes), objects.map enc = docs.map Except.ok →
      encodeLoop enc i objects buf =
        .ok (buf ++ (if i > 0 then sepDocs docs else joinDocs docs)) := by
  induction objects with
  | nil =>
    intro docs i buf h
    cases docs with
    | nil => simp [encodeLoop, sepDocs, joinDocs]
    | cons d ds => simp at h
  | cons o rest ih =>
    intro docs i buf h
    cases docs with
    | nil => simp at h
    | cons d ds =>
      simp only [List.map_cons, List.cons.injEq] at h
      obtain ⟨ho, hrest⟩ := h
      simp only [encodeLoop, ho]
      rw [ih ds (i + 1) _ hrest]
      by_cases hi : i > 0
      · simp [hi, sepDocs, List.append_assoc]
      · simp [hi, joinDocs_cons, List.append_assoc]

theorem encodeLoop_error (enc : Object → Except GoError Bytes) (pre : List Object)
    (o : Object) (post : List Object) (e : GoError)
    (hpre : ∀ x ∈ pre, ∃ b, enc x = .ok b) (ho : enc o = .error e) :
    ∀ (i : Nat) (buf : Bytes), encodeLoop enc i (pre ++ o :: post) buf = .error e := by
  induction pre with
  | nil =>
    intro i buf
    simp [encodeLoop, ho]
  | cons x xs ih =>
    intro i buf
    obtain ⟨b, hb⟩ := hpre x (List.mem_cons_self _ _)
    simp only [List.cons_append, encodeLoop, hb]
    exact ih (fun y hy => hpre y (List.mem_cons_of_mem _ hy)) _ _

theorem joinDocs_length (docs : List Bytes) :
    (joinDocs docs).length =
      (docs.map List.length).sum + (docs.length - 1) * separator.length := by
  cases docs with
  | nil => simp [joinDocs]
  | cons d ds =>
    rw [joinDocs_cons]
    have : ∀ l : List Bytes,
        (sepDocs l).length = (l.map List.length).sum + l.length * separator.length := by
      intro l
      induction l with
      | nil => simp [sepDocs]
      | cons x xs ih =>
        simp only [sepDocs, List.length_append, ih, List.map_cons, List.sum_cons,
          List.length_cons]
        ring
    simp only [List.length_append, this, List.map_cons, List.sum_cons, List.length_cons,
      Nat.add_sub_cancel]
    ring

/-! ## The claims -/

section Claims
variable {σ : Type}

/-- Claim C1. For each of the four resource kinds (key ring, crypto key, bucket, service
account), every provider and every provider state: when the existence check reports
`found = true`, the step makes the lookup call only, no create call, and the
descriptor held afterwards is the one the check returned; when it reports
`found = false`, the step makes the lookup call and then the create call exactly once,
the descriptor held afterwards is the one the create returned when it succeeds, and
the run ends fatally when it fails.  (The bucket check and create return no
descriptor.) -/
theorem ensure_found_or_create (env : Env σ) (w : World σ)
    (projectID location keyRingName keyRing keyName bucketName saName saID : String) :
    -- key ring
    (((IsKeyRingExists env projectID location keyRingName w).1.found = true →
        (∃ k, (IsKeyRingExists env projectID location keyRingName w).1.val = some k) ∧
        ensureKeyRing env projectID location keyRingName w =
          (.ok (IsKeyRingExists env projectID location keyRingName w).1.val,
            (IsKeyRingExists env projectID location keyRingName w).2) ∧
        callsSince w (ensureKeyRing env projectID location keyRingName w).2 =
          [.KeyRingsGet (keyRingLookupName projectID location keyRingName)]) ∧
      ((IsKeyRingExists env projectID location keyRingName w).1.found = false →
        callsSince w (ensureKeyRing env projectID location keyRingName w).2 =
          [.KeyRingsGet (keyRingLookupName projectID location keyRingName),
            .KeyRingsCreate (keyRingParent projectID location)
              { Name := keyRingCreateName projectID location keyRingName, CreateTime := "" }
              keyRingName] ∧
        (∀ k, (CreateKeyRing env projectID location keyRingName
              (IsKeyRingExists env projectID location keyRingName w).2).1 = .ok k →
          (ensureKeyRing env projectID location keyRingName w).1 = .ok (some k)) ∧
        (∀ err, (CreateKeyRing env projectID location keyRingName
              (IsKeyRingExists env projectID location keyRingName w).2).1 = .error err →
          (ensureKeyRing env projectID location keyRingName w).1 = .error (.fatal err)))) ∧
    -- crypto key
    (((IsKeyExists env keyRing keyName w).1.found = true →
        (∃ k, (IsKeyExists env keyRing keyName w).1.val = some k) ∧
        ensureKey env keyRing keyName w =
          (.ok (IsKeyExists env keyRing keyName w).1.val, (IsKeyExists env keyRing keyName w).2) ∧
        callsSince w (ensureKey env keyRing keyName w).2 =
          [.CryptoKeysGet (keyRing ++ "/cryptoKeys/" ++ keyName)]) ∧
      ((IsKeyExists env keyRing keyName w).1.found = false →
        callsSince w (ensureKey env keyRing keyName w).2 =
          [.CryptoKeysGet (keyRing ++ "/cryptoKeys/" ++ keyName),
            .CryptoKeysCreate keyRing { Name := "", Purpose := "ENCRYPT_DECRYPT" } keyName] ∧
        (∀ k, (CreateKey env keyRing keyName (IsKeyExists env keyRing keyName w).2).1 = .ok k →
          (ensureKey env keyRing keyName w).1 = .ok (some k)) ∧
        (∀ err, (CreateKey env keyRing keyName (IsKeyExists env keyRing keyName w).2).1 =
            .error err →
          (ensureKey env keyRing keyName w).1 = .error (.fatal err)))) ∧
    -- bucket
    (((IsCloudStorageExists env bucketName w).1.1 = true →
        ensureBucket env projectID bucketName w =
          (.ok (), (IsCloudStorageExists env bucketName w).2) ∧
        callsSince w (ensureBucket env projectID bucketName w).2 = [.BucketAttrs bucketName]) ∧
      ((IsCloudStorageExists env bucketName w).1.1 = false →
        callsSince w (ensureBucket env projectID bucketName w).2 =
          [.BucketAttrs bucketName, .BucketCreate bucketName projectID] ∧
        ((CreateCloudStorage env projectID bucketName
              (IsCloudStorageExists env bucketName w).2).1 = none →
          (ensureBucket env projectID bucketName w).1 = .ok ()) ∧
        (∀ err, (CreateCloudStorage env projectID bucketName
              (IsCloudStorageExists env bucketName w).2).1 = some err →
          (ensureBucket env projectID bucketName w).1 = .error (.fatal err)))) ∧
    -- service account
    (((IsIAMServiceAccountExists env projectID
          (serviceAccountEmail saID projectID) w).1.found = true →
        (∃ a, (IsIAMServiceAccountExists env projectID
          (serviceAccountEmail saID projectID) w).1.val = some a) ∧
        ensureServiceAccount env projectID saName saID w =
          (.ok (IsIAMServiceAccountExists env projectID
              (serviceAccountEmail saID projectID) w).1.val,
            (IsIAMServiceAccountExists env projectID
              (serviceAccountEmail saID projectID) w).2) ∧
        callsSince w (ensureServiceAccount env projectID saName saID w).2 =
          [.GetServiceAccount
            ("projects/-/serviceAccounts/" ++ serviceAccountEmail saID projectID)]) ∧
      ((IsIAMServiceAccountExists env projectID
          (serviceAccountEmail saID projectID) w).1.found = false →
        callsSince w (ensureServiceAccount env projectID saName saID w).2 =
          [.GetServiceAccount
              ("projects/-/serviceAccounts/" ++ serviceAccountEmail saID projectID),
            .CreateServiceAccount (Join ["projects", projectID]) saID saName] ∧
        (∀ a, (CreateIAMServiceAccount env projectID saName saID
              (IsIAMServiceAccountExists env projectID
                (serviceAccountEmail saID projectID) w).2).1 = .ok a →
          (ensureServiceAccount env projectID saName saID w).1 = .ok (some a)) ∧
        (∀ err, (CreateIAMServiceAccount env projectID saName saID
              (IsIAMServiceAccountExists env projectID
                (serviceAccountEmail saID projectID) w).2).1 = .error err →
          (ensureServiceAccount env projectID saName saID w).1 = .error (.fatal err)))) := by
  refine ⟨?_, ?_, ?_, ?_⟩
  · cases h : (env.KeyRingsGet (keyRingLookupName projectID location keyRingName) w.st).1 with
    | ok k =>
      obtain ⟨h1, h2⟩ := ensureKeyRing_of_ok env w projectID location keyRingName k h
      simp [h1, h2, callsSince]
    | error e =>
      obtain ⟨h1, h2, h3⟩ := ensureKeyRing_of_error env w projectID location keyRingName e h
      refine ⟨by simp [h1], fun _ => ⟨by rw [h2]; simp [callsSince], ?_, ?_⟩⟩
      · intro k hk
        rw [h3, hk]
      · intro err hk
        rw [h3, hk]
  · cases h : (env.CryptoKeysGet (keyRing ++ "/cryptoKeys/" ++ keyName) w.st).1 with
    | ok k =>
      obtain ⟨h1, h2⟩ := ensureKey_of_ok env w keyRing keyName k h
      simp [h1, h2, callsSince]
    | error e =>
      obtain ⟨h1, h2, h3⟩ := ensureKey_of_error env w keyRing keyName e h
      refine ⟨by simp [h1], fun _ => ⟨by rw [h2]; simp [callsSince], ?_, ?_⟩⟩
      · intro k hk
        rw [h3, hk]
      · intro err hk
        rw [h3, hk]
  · cases h : (env.BucketAttrs bucketName w.st).1 with
    | ok u =>
      obtain ⟨h1, h2⟩ := ensureBucket_of_ok env w projectID bucketName h
      simp [h1, h2, callsSince]
    | error e =>
      obtain ⟨h1, h2, h3⟩ := ensureBucket_of_error env w projectID bucketName e h
      refine ⟨by simp [h1], fun _ => ⟨by rw [h2]; simp [callsSince], ?_, ?_⟩⟩
      · intro hk
        rw [h3, hk]
      · intro err hk
        rw [h3, hk]
  · cases h : (env.GetServiceAccount
        ("projects/-/serviceAccounts/" ++ serviceAccountEmail saID projectID) w.st).1 with
    | ok a =>
      obtain ⟨h1, h2⟩ := ensureServiceAccount_of_ok env w projectID saName saID a h
      simp [h1, h2, callsSince]
    | error e =>
      obtain ⟨h1, h2, h3⟩ := ensureServiceAccount_of_error env w projectID saName saID e h
      refine ⟨by simp [h1], fun _ => ⟨by rw [h2]; simp [callsSince], ?_, ?_⟩⟩
      · intro k hk
        rw [h3, hk]
      · intro err hk
        rw [h3, hk]

/-- Witness of claim C1 on the in-memory provider, from a fresh project: the key ring
is not found, so the step makes the lookup call and then the one create call. -/
theorem ensure_found_or_create_witness :
    callsSince (startIn freshMem)
        (ensureKeyRing memEnv ProjectID "global" KeyRingName (startIn freshMem)).2 =
      [.KeyRingsGet (keyRingLookupName ProjectID "global" KeyRingName),
        .KeyRingsCreate (keyRingParent ProjectID "global")
          { Name := keyRingCreateName ProjectID "global" KeyRingName, CreateTime := "" }
          KeyRingName] :=
  ((ensure_found_or_create memEnv (startIn freshMem) ProjectID "global" KeyRingName
    "r" KeyName BucketName ServiceAccountName ServiceAccountID).1.2 (by decide)).1

/-- Claim C3. For every error the lookup call of the provider returns, whatever it
means, each of the four existence checks returns `found = false` together with
that very error; and the step of `main` calls the corresponding create operation
exactly when the lookup returned an error, so the error itself is discarded. -/
theorem lookup_error_leads_to_create (env : Env σ) (w : World σ)
    (projectID location keyRingName keyRing keyName bucketName saName saID : String) :
    -- key ring
    ((∀ e, (env.KeyRingsGet (keyRingLookupName projectID location keyRingName) w.st).1 =
          .error e →
        (IsKeyRingExists env projectID location keyRingName w).1 =
          { val := none, found := false, err := some e }) ∧
      (Call.KeyRingsCreate (keyRingParent projectID location)
            { Name := keyRingCreateName projectID location keyRingName, CreateTime := "" }
            keyRingName ∈
          callsSince w (ensureKeyRing env projectID location keyRingName w).2 ↔
        ∃ e, (env.KeyRingsGet (keyRingLookupName projectID location keyRingName) w.st).1 =
          .error e)) ∧
    -- crypto key
    ((∀ e, (env.CryptoKeysGet (keyRing ++ "/cryptoKeys/" ++ keyName) w.st).1 = .error e →
        (IsKeyExists env keyRing keyName w).1 =
          { val := none, found := false, err := some e }) ∧
      (Call.CryptoKeysCreate keyRing { Name := "", Purpose := "ENCRYPT_DECRYPT" } keyName ∈
          callsSince w (ensureKey env keyRing keyName w).2 ↔
        ∃ e, (env.CryptoKeysGet (keyRing ++ "/cryptoKeys/" ++ keyName) w.st).1 = .error e)) ∧
    -- bucket
    ((∀ e, (env.BucketAttrs bucketName w.st).1 = .error e →
        (IsCloudStorageExists env bucketName w).1 = (false, some e)) ∧
      (Call.BucketCreate bucketName projectID ∈
          callsSince w (ensureBucket env projectID bucketName w).2 ↔
        ∃ e, (env.BucketAttrs bucketName w.st).1 = .error e)) ∧
    -- service account
    ((∀ e, (env.GetServiceAccount
          ("projects/-/serviceAccounts/" ++ serviceAccountEmail saID projectID) w.st).1 =
          .error e →
        (IsIAMServiceAccountExists env projectID (serviceAccountEmail saID projectID) w).1 =
          { val := none, found := false, err := some e }) ∧
      (Call.CreateServiceAccount (Join ["projects", projectID]) saID saName ∈
          callsSince w (ensureServiceAccount env projectID saName saID w).2 ↔
        ∃ e, (env.GetServiceAccount
          ("projects/-/serviceAccounts/" ++ serviceAccountEmail saID projectID) w.st).1 =
          .error e)) := by
  refine ⟨?_, ?_, ?_, ?_⟩
  · cases h : (env.KeyRingsGet (keyRingLookupName projectID location keyRingName) w.st).1 with
    | ok k =>
      obtain ⟨_, h2⟩ := ensureKeyRing_of_ok env w projectID location keyRingName k h
      simp [h2, callsSince]
    | error e =>
      obtain ⟨h1, h2, _⟩ := ensureKeyRing_of_error env w projectID location keyRingName e h
      rw [h1, h2]
      simp [callsSince]
  · cases h : (env.CryptoKeysGet (keyRing ++ "/cryptoKeys/" ++ keyName) w.st).1 with
    | ok k =>
      obtain ⟨_, h2⟩ := ensureKey_of_ok env w keyRing keyName k h
      simp [h2, callsSince]
    | error e =>
      obtain ⟨h1, h2, _⟩ := ensureKey_of_error env w keyRing keyName e h
      rw [h1, h2]
      simp [callsSince]
  · cases h : (env.BucketAttrs bucketName w.st).1 with
    | ok u =>
      obtain ⟨_, h2⟩ := ensureBucket_of_ok env w projectID bucketName h
      simp [h2, callsSince]
    | error e =>
      obtain ⟨h1, h2, _⟩ := ensureBucket_of_error env w projectID bucketName e h
      rw [h1, h2]
      simp [callsSince]
  · cases h : (env.GetServiceAccount
        ("projects/-/serviceAccounts/" ++ serviceAccountEmail saID projectID) w.st).1 with
    | ok a =>
      obtain ⟨_, h2⟩ := ensureServiceAccount_of_ok env w projectID saName saID a h
      simp [h2, callsSince]
    | error e =>
      obtain ⟨h1, h2, _⟩ := ensureServiceAccount_of_error env w projectID saName saID e h
      rw [h1, h2]
      simp [callsSince]

/-- Witness of claim C3 on the in-memory provider, from a fresh project: the lookup of
the bucket returns an error, and the step calls the bucket create. -/
theorem lookup_error_leads_to_create_witness :
    Call.BucketCreate BucketName ProjectID ∈
      callsSince (startIn freshMem)
        (ensureBucket memEnv ProjectID BucketName (startIn freshMem)).2 :=
  ((lookup_error_leads_to_create memEnv (startIn freshMem) ProjectID "global" KeyRingName
    "r" KeyName BucketName ServiceAccountName ServiceAccountID).2.2.1.2).mpr
      ⟨.raw "bucket does not exist", rfl⟩

/-- Claim C2. Over a provider in which a successful create makes the later existence
check for the same arguments succeed: for each resource kind and identifier, when
the resource is absent the step calls create (`created = true`), and when that run
goes on (the create succeeded) the same step run again finds the resource and calls
no create (`created = false`). -/
theorem ensure_twice (env : Env σ) (w : World σ)
    (projectID location keyRingName keyRing keyName bucketName saName saID : String)
    (hRing : ∀ w0 k w1, CreateKeyRing env projectID location keyRingName w0 = (.ok k, w1) →
      (IsKeyRingExists env projectID location keyRingName w1).1.found = true)
    (hKey : ∀ w0 k w1, CreateKey env keyRing keyName w0 = (.ok k, w1) →
      (IsKeyExists env keyRing keyName w1).1.found = true)
    (hBucket : ∀ w0 w1, CreateCloudStorage env projectID bucketName w0 = (none, w1) →
      (IsCloudStorageExists env bucketName w1).1.1 = true)
    (hAccount : ∀ w0 a w1,
      CreateIAMServiceAccount env projectID saName saID w0 = (.ok a, w1) →
      (IsIAMServiceAccountExists env projectID
        (serviceAccountEmail saID projectID) w1).1.found = true) :
    -- key ring
    ((IsKeyRingExists env projectID location keyRingName w).1.found = false →
      created w (ensureKeyRing env projectID location keyRingName w).2 = true ∧
      ∀ d, (ensureKeyRing env projectID location keyRingName w).1 = .ok d →
        created (ensureKeyRing env projectID location keyRingName w).2
            (ensureKeyRing env projectID location keyRingName
              (ensureKeyRing env projectID location keyRingName w).2).2 = false ∧
          ∃ k, (ensureKeyRing env projectID location keyRingName
              (ensureKeyRing env projectID location keyRingName w).2).1 = .ok (some k)) ∧
    -- crypto key
    ((IsKeyExists env keyRing keyName w).1.found = false →
      created w (ensureKey env keyRing keyName w).2 = true ∧
      ∀ d, (ensureKey env keyRing keyName w).1 = .ok d →
        created (ensureKey env keyRing keyName w).2
            (ensureKey env keyRing keyName (ensureKey env keyRing keyName w).2).2 = false ∧
          ∃ k, (ensureKey env keyRing keyName (ensureKey env keyRing keyName w).2).1 =
            .ok (some k)) ∧
    -- bucket
    ((IsCloudStorageExists env bucketName w).1.1 = false →
      created w (ensureBucket env projectID bucketName w).2 = true ∧
      ∀ d, (ensureBucket env projectID bucketName w).1 = .ok d →
        created (ensureBucket env projectID bucketName w).2
            (ensureBucket env projectID bucketName
              (ensureBucket env projectID bucketName w).2).2 = false ∧
          (ensureBucket env projectID bucketName
              (ensureBucket env projectID bucketName w).2).1 = .ok ()) ∧
    -- service account
    ((IsIAMServiceAccountExists env projectID
        (serviceAccountEmail saID projectID) w).1.found = false →
      created w (ensureServiceAccount env projectID saName saID w).2 = true ∧
      ∀ d, (ensureServiceAccount env projectID saName saID w).1 = .ok d →
        created (ensureServiceAccount env projectID saName saID w).2
            (ensureServiceAccount env projectID saName saID
              (ensureServiceAccount env projectID saName saID w).2).2 = false ∧
          ∃ a, (ensureServiceAccount env projectID saName saID
              (ensureServiceAccount env projectID saName saID w).2).1 = .ok (some a)) := by
  refine ⟨?_, ?_, ?_, ?_⟩
  · intro habs
    cases h : (env.KeyRingsGet (keyRingLookupName projectID location keyRingName) w.st).1 with
    | ok k =>
      obtain ⟨h1, _⟩ := ensureKeyRing_of_ok env w projectID location keyRingName k h
      simp [h1] at habs
    | error e =>
      obtain ⟨_, h2, h3⟩ := ensureKeyRing_of_error env w projectID location keyRingName e h
      refine ⟨by rw [h2]; simp [created, callsSince, Call.isCreate], ?_⟩
      intro d hd
      cases hc : (CreateKeyRing env projectID location keyRingName
          (IsKeyRingExists env projectID location keyRingName w).2).1 with
      | error err => simp [h3, hc] at hd
      | ok k =>
        have hw : (ensureKeyRing env projectID location keyRingName w).2 =
            (CreateKeyRing env projectID location keyRingName
              (IsKeyRingExists env projectID location keyRingName w).2).2 := by
          rw [h3]
        have hf := hRing (IsKeyRingExists env projectID location keyRingName w).2 k
          (ensureKeyRing env projectID location keyRingName w).2
          (by rw [hw]; exact Prod.ext hc rfl)
        cases h' : (env.KeyRingsGet (keyRingLookupName projectID location keyRingName)
            (ensureKeyRing env projectID location keyRingName w).2.st).1 with
        | ok k1 =>
          obtain ⟨_, h5⟩ := ensureKeyRing_of_ok env _ projectID location keyRingName k1 h'
          rw [h5]
          simp [created, callsSince, Call.isCreate]
        | error e1 =>
          obtain ⟨h4, _⟩ := ensureKeyRing_of_error env _ projectID location keyRingName e1 h'
          simp [h4] at hf
  · intro habs
    cases h : (env.CryptoKeysGet (keyRing ++ "/cryptoKeys/" ++ keyName) w.st).1 with
    | ok k =>
      obtain ⟨h1, _⟩ := ensureKey_of_ok env w keyRing keyName k h
      simp [h1] at habs
    | error e =>
      obtain ⟨_, h2, h3⟩ := ensureKey_of_error env w keyRing keyName e h
      refine ⟨by rw [h2]; simp [created, callsSince, Call.isCreate], ?_⟩
      intro d hd
      cases hc : (CreateKey env keyRing keyName (IsKeyExists env keyRing keyName w).2).1 with
      | error err => simp [h3, hc] at hd
      | ok k =>
        have hw : (ensureKey env keyRing keyName w).2 =
            (CreateKey env keyRing keyName (IsKeyExists env keyRing keyName w).2).2 := by
          rw [h3]
        have hf := hKey (IsKeyExists env keyRing keyName w).2 k
          (ensureKey env keyRing keyName w).2 (by rw [hw]; exact Prod.ext hc rfl)
        cases h' : (env.CryptoKeysGet (keyRing ++ "/cryptoKeys/" ++ keyName)
            (ensureKey env keyRing keyName w).2.st).1 with
        | ok k1 =>
          obtain ⟨_, h5⟩ := ensureKey_of_ok env _ keyRing keyName k1 h'
          rw [h5]
          simp [created, callsSince, Call.isCreate]
        | error e1 =>
          obtain ⟨h4, _⟩ := ensureKey_of_error env _ keyRing keyName e1 h'
          simp [h4] at hf
  · intro habs
    cases h : (env.BucketAttrs bucketName w.st).1 with
    | ok u =>
      obtain ⟨h1, _⟩ := ensureBucket_of_ok env w projectID bucketName h
      simp [h1] at habs
    | error e =>
      obtain ⟨_, h2, h3⟩ := ensureBucket_of_error env w projectID bucketName e h
      refine ⟨by rw [h2]; simp [created, callsSince, Call.isCreate], ?_⟩
      intro d hd
      cases hc : (CreateCloudStorage env projectID bucketName
          (IsCloudStorageExists env bucketName w).2).1 with
      | some err => simp [h3, hc] at hd
      | none =>
        have hw : (ensureBucket env projectID bucketName w).2 =
            (CreateCloudStorage env projectID bucketName
              (IsCloudStorageExists env bucketName w).2).2 := by
          rw [h3]
        have hf := hBucket (IsCloudStorageExists env bucketName w).2
          (ensureBucket env projectID bucketName w).2 (by rw [hw]; exact Prod.ext hc rfl)
        cases h' : (env.BucketAttrs bucketName
            (ensureBucket env projectID bucketName w).2.st).1 with
        | ok u1 =>
          obtain ⟨_, h5⟩ := ensureBucket_of_ok env _ projectID bucketName h'
          rw [h5]
          simp [created, callsSince, Call.isCreate]
        | error e1 =>
          obtain ⟨h4, _⟩ := ensureBucket_of_error env _ projectID bucketName e1 h'
          simp [h4] at hf
  · intro habs
    cases h : (env.GetServiceAccount
        ("projects/-/serviceAccounts/" ++ serviceAccountEmail saID projectID) w.st).1 with
    | ok a =>
      obtain ⟨h1, _⟩ := ensureServiceAccount_of_ok env w projectID saName saID a h
      simp [h1] at habs
    | error e =>
      obtain ⟨_, h2, h3⟩ := ensureServiceAccount_of_error env w projectID saName saID e h
      refine ⟨by rw [h2]; simp [created, callsSince, Call.isCreate], ?_⟩
      intro d hd
      cases hc : (CreateIAMServiceAccount env projectID saName saID
          (IsIAMServiceAccountExists env projectID
            (serviceAccountEmail saID projectID) w).2).1 with
      | error err => simp [h3, hc] at hd
      | ok a =>
        have hw : (ensureServiceAccount env projectID saName saID w).2 =
            (CreateIAMServiceAccount env projectID saName saID
              (IsIAMServiceAccountExists env projectID
                (serviceAccountEmail saID projectID) w).2).2 := by
          rw [h3]
        have hf := hAccount
          (IsIAMServiceAccountExists env projectID (serviceAccountEmail saID projectID) w).2 a
          (ensureServiceAccount env projectID saName saID w).2
          (by rw [hw]; exact Prod.ext hc rfl)
        cases h' : (env.GetServiceAccount
            ("projects/-/serviceAccounts/" ++ serviceAccountEmail saID projectID)
            (ensureServiceAccount env projectID saName saID w).2.st).1 with
        | ok a1 =>
          obtain ⟨_, h5⟩ := ensureServiceAccount_of_ok env _ projectID saName saID a1 h'
          rw [h5]
          simp [created, callsSince, Call.isCreate]
        | error e1 =>
          obtain ⟨h4, _⟩ := ensureServiceAccount_of_error env _ projectID saName saID e1 h'
          simp [h4] at hf

/-- Witness of claim C2 on the in-memory provider, from a fresh project: each of the
four steps creates on the first run and does not on the second. -/
theorem ensure_twice_witness :
    (created (startIn freshMem)
        (ensureKeyRing memEnv ProjectID "global" KeyRingName (startIn freshMem)).2 = true ∧
      created (ensureKeyRing memEnv ProjectID "global" KeyRingName (startIn freshMem)).2
        (ensureKeyRing memEnv ProjectID "global" KeyRingName
          (ensureKeyRing memEnv ProjectID "global" KeyRingName (startIn freshMem)).2).2 =
        false) ∧
    (created (startIn freshMem)
        (ensureKey memEnv (keyRingLookupName ProjectID "global" KeyRingName) KeyName
          (startIn freshMem)).2 = true ∧
      created
        (ensureKey memEnv (keyRingLookupName ProjectID "global" KeyRingName) KeyName
          (startIn freshMem)).2
        (ensureKey memEnv (keyRingLookupName ProjectID "global" KeyRingName) KeyName
          (ensureKey memEnv (keyRingLookupName ProjectID "global" KeyRingName) KeyName
            (startIn freshMem)).2).2 = false) ∧
    (created (startIn freshMem)
        (ensureBucket memEnv ProjectID BucketName (startIn freshMem)).2 = true ∧
      created (ensureBucket memEnv ProjectID BucketName (startIn freshMem)).2
        (ensureBucket memEnv ProjectID BucketName
          (ensureBucket memEnv ProjectID BucketName (startIn freshMem)).2).2 = false) ∧
    (created (startIn freshMem)
        (ensureServiceAccount memEnv ProjectID ServiceAccountName ServiceAccountID
          (startIn freshMem)).2 = true ∧
      created
        (ensureServiceAccount memEnv ProjectID ServiceAccountName ServiceAccountID
          (startIn freshMem)).2
        (ensureServiceAccount memEnv ProjectID ServiceAccountName ServiceAccountID
          (ensureServiceAccount memEnv ProjectID ServiceAccountName ServiceAccountID
            (startIn freshMem)).2).2 = false) := by
  obtain ⟨hR, hK, hB, hA⟩ := ensure_twice memEnv (startIn freshMem) ProjectID "global"
    KeyRingName (keyRingLookupName ProjectID "global" KeyRingName) KeyName BucketName
    ServiceAccountName ServiceAccountID
    (fun w0 k w1 h => memEnv_ring_found _ _ _ w0 w1 k h)
    (fun w0 k w1 h => memEnv_key_found _ _ w0 w1 k h)
    (fun w0 w1 h => memEnv_bucket_found _ _ w0 w1 h)
    (fun w0 a w1 h => memEnv_account_found _ w0 w1 a h)
  have h1 := hR (by decide)
  have h2 := hK (by decide)
  have h3 := hB (by decide)
  have h4 := hA (by decide)
  exact ⟨⟨h1.1, (h1.2 _ rfl).1⟩, ⟨h2.1, (h2.2 _ rfl).1⟩, ⟨h3.1, (h3.2 _ rfl).1⟩,
    ⟨h4.1, (h4.2 _ rfl).1⟩⟩

/-- Claim C4. For every service-account e-mail, key resource id and policy document
`P` returned by the read: `SetPolicyInKey` makes the read call and then one write
call, to the same resource, of a document `D` whose binding list is that of `P`, in
the same order, followed by the one binding of role
`roles/cloudkms.cryptoKeyEncrypterDecrypter` with the single member
`serviceAccount:` followed by the e-mail, and whose etag and other fields are those
of `P`, whatever bindings `P` has.  When the read fails there is no write call and an
error is returned. -/
theorem SetPolicyInKey_appends_binding (env : Env σ) (w : World σ)
    (saEmail keyResourceID : String) :
    (∀ P, (env.CryptoKeysGetIamPolicy keyResourceID w.st).1 = .ok P →
      ∃ D : Policy,
        callsSince w (SetPolicyInKey env saEmail keyResourceID w).2 =
          [.CryptoKeysGetIamPolicy keyResourceID,
            .CryptoKeysSetIamPolicy keyResourceID D] ∧
        (SetPolicyInKey env saEmail keyResourceID w).2.st =
          (env.CryptoKeysSetIamPolicy keyResourceID D
            (env.CryptoKeysGetIamPolicy keyResourceID w.st).2).2 ∧
        D.Bindings = P.Bindings ++
          [{ Role := "roles/cloudkms.cryptoKeyEncrypterDecrypter",
             Members := ["serviceAccount:" ++ saEmail] }] ∧
        D.Etag = P.Etag ∧ D.AuditConfigs = P.AuditConfigs ∧ D.Version = P.Version) ∧
    (∀ err, (env.CryptoKeysGetIamPolicy keyResourceID w.st).1 = .error err →
      callsSince w (SetPolicyInKey env saEmail keyResourceID w).2 =
        [.CryptoKeysGetIamPolicy keyResourceID] ∧
      (SetPolicyInKey env saEmail keyResourceID w).1 =
        some (.wrap err "unable to get policy")) := by
  constructor
  · intro P h
    refine ⟨{ P with Bindings := P.Bindings ++ [keyBinding saEmail] }, ?_, ?_, rfl, rfl, rfl, rfl⟩
    · simp only [SetPolicyInKey, World.call, h]
      cases (env.CryptoKeysSetIamPolicy keyResourceID
          { P with Bindings := P.Bindings ++ [keyBinding saEmail] }
          (env.CryptoKeysGetIamPolicy keyResourceID w.st).2).1 <;> simp [callsSince]
    · simp only [SetPolicyInKey, World.call, h]
      cases (env.CryptoKeysSetIamPolicy keyResourceID
          { P with Bindings := P.Bindings ++ [keyBinding saEmail] }
          (env.CryptoKeysGetIamPolicy keyResourceID w.st).2).1 <;> simp
  · intro err h
    simp [SetPolicyInKey, World.call, h, callsSince]

/-- Witness of claim C4 on the in-memory provider: the call on a key without stored
policy writes the one binding. -/
theorem SetPolicyInKey_appends_binding_witness :
    ∃ D : Policy,
      callsSince (startIn freshMem) (SetPolicyInKey memEnv "a@b" "k" (startIn freshMem)).2 =
        [.CryptoKeysGetIamPolicy "k", .CryptoKeysSetIamPolicy "k" D] ∧
      D.Bindings = [{ Role := "roles/cloudkms.cryptoKeyEncrypterDecrypter",
                      Members := ["serviceAccount:a@b"] }] := by
  obtain ⟨D, h1, _, h3, _⟩ :=
    (SetPolicyInKey_appends_binding memEnv (startIn freshMem) "a@b" "k").1 emptyPolicy rfl
  exact ⟨D, h1, h3⟩

/-- Claim C5. Over a provider that stores the written document as it is (a read of
the key's policy returns the stored document and changes nothing, a write succeeds
and stores its argument): two calls of `SetPolicyInKey` in sequence with the same
e-mail and key resource both succeed and leave a stored document whose binding list
is the initial one followed by the new binding twice, so it has two more bindings
for the pair (role, member) than the initial document, and the second call changed
the stored document: the grant is not idempotent. -/
theorem SetPolicyInKey_twice_duplicates (env : Env σ) (doc : σ → Policy)
    (saEmail keyResourceID : String)
    (hget : ∀ s, env.CryptoKeysGetIamPolicy keyResourceID s = (.ok (doc s), s))
    (hset : ∀ P s, (∃ r, (env.CryptoKeysSetIamPolicy keyResourceID P s).1 = .ok r) ∧
      doc (env.CryptoKeysSetIamPolicy keyResourceID P s).2 = P)
    (w : World σ) :
    (SetPolicyInKey env saEmail keyResourceID w).1 = none ∧
    (SetPolicyInKey env saEmail keyResourceID
      (SetPolicyInKey env saEmail keyResourceID w).2).1 = none ∧
    (doc (SetPolicyInKey env saEmail keyResourceID
        (SetPolicyInKey env saEmail keyResourceID w).2).2.st).Bindings =
      (doc w.st).Bindings ++ [keyBinding saEmail, keyBinding saEmail] ∧
    bindingsFor "roles/cloudkms.cryptoKeyEncrypterDecrypter" ("serviceAccount:" ++ saEmail)
        (doc (SetPolicyInKey env saEmail keyResourceID
          (SetPolicyInKey env saEmail keyResourceID w).2).2.st).Bindings =
      bindingsFor "roles/cloudkms.cryptoKeyEncrypterDecrypter" ("serviceAccount:" ++ saEmail)
        (doc w.st).Bindings + 2 ∧
    doc (SetPolicyInKey env saEmail keyResourceID
        (SetPolicyInKey env saEmail keyResourceID w).2).2.st ≠
      doc (SetPolicyInKey env saEmail keyResourceID w).2.st := by
  have step : ∀ w0 : World σ,
      (SetPolicyInKey env saEmail keyResourceID w0).1 = none ∧
      doc (SetPolicyInKey env saEmail keyResourceID w0).2.st =
        { doc w0.st with Bindings := (doc w0.st).Bindings ++ [keyBinding saEmail] } := by
    intro w0
    obtain ⟨⟨r, hr⟩, hd⟩ := hset
      { doc w0.st with Bindings := (doc w0.st).Bindings ++ [keyBinding saEmail] } w0.st
    simp only [SetPolicyInKey, World.call, hget, hr]
    exact ⟨trivial, hd⟩
  obtain ⟨a1, d1⟩ := step w
  obtain ⟨a2, d2⟩ := step (SetPolicyInKey env saEmail keyResourceID w).2
  have hb : (doc (SetPolicyInKey env saEmail keyResourceID
        (SetPolicyInKey env saEmail keyResourceID w).2).2.st).Bindings =
      (doc w.st).Bindings ++ [keyBinding saEmail, keyBinding saEmail] := by
    rw [d2, d1]
    simp
  refine ⟨a1, a2, hb, ?_, ?_⟩
  · rw [hb]
    simp [bindingsFor, keyBinding, List.countP_append, List.countP_cons]
  · intro h
    have := congrArg (fun P : Policy => P.Bindings.length) h
    simp only [hb] at this
    rw [d1] at this
    simp at this

/-- Witness of claim C5 on the in-memory provider, for a key without stored policy:
two calls leave two bindings for the pair. -/
theorem SetPolicyInKey_twice_duplicates_witness :
    bindingsFor "roles/cloudkms.cryptoKeyEncrypterDecrypter" "serviceAccount:a@b"
        (((SetPolicyInKey memEnv "a@b" "k"
          (SetPolicyInKey memEnv "a@b" "k" (startIn freshMem)).2).2.st.keyPolicies.lookup
            "k").getD emptyPolicy).Bindings = 0 + 2 :=
  (SetPolicyInKey_twice_duplicates memEnv
    (fun s => (s.keyPolicies.lookup "k").getD emptyPolicy) "a@b" "k"
    (fun _ => rfl) (fun P s => ⟨⟨P, rfl⟩, by simp [memEnv]⟩) (startIn freshMem)).2.2.2.1

/-- Counterexample to claim C6 as stated: on the in-memory provider, which stores the
written document as it is, the second call of `SetPolicyInStorageBucket` with the same
arguments leaves the stored policy as the first call left it, and the member is listed
once, not twice, under each of the two roles. -/
theorem bucket_rerun_no_duplicate :
    ((SetPolicyInStorageBucket memEnv "a@b" "bkt"
        (SetPolicyInStorageBucket memEnv "a@b" "bkt" (startIn freshMem)).2).2.st.bucketPolicies.lookup
          "bkt" =
      (SetPolicyInStorageBucket memEnv "a@b" "bkt" (startIn freshMem)).2.st.bucketPolicies.lookup
          "bkt") ∧
    occurrences
      (((SetPolicyInStorageBucket memEnv "a@b" "bkt"
        (SetPolicyInStorageBucket memEnv "a@b" "bkt" (startIn freshMem)).2).2.st.bucketPolicies.lookup
          "bkt").getD emptyIamPolicy)
      "serviceAccount:a@b" "roles/storage.objectAdmin" = 1 ∧
    occurrences
      (((SetPolicyInStorageBucket memEnv "a@b" "bkt"
        (SetPolicyInStorageBucket memEnv "a@b" "bkt" (startIn freshMem)).2).2.st.bucketPolicies.lookup
          "bkt").getD emptyIamPolicy)
      "serviceAccount:a@b" "roles/storage.legacyBucketReader" = 1 ∧
    ¬ (occurrences
      (((SetPolicyInStorageBucket memEnv "a@b" "bkt"
        (SetPolicyInStorageBucket memEnv "a@b" "bkt" (startIn freshMem)).2).2.st.bucketPolicies.lookup
          "bkt").getD emptyIamPolicy)
      "serviceAccount:a@b" "roles/storage.objectAdmin" = 2) := by
  decide

/-- Claim C6, amended. Over a provider that stores the written bucket policy as it is:
`SetPolicyInStorageBucket` reads the policy, adds the member `serviceAccount:` followed
by the e-mail to the two roles `roles/storage.objectAdmin` and
`roles/storage.legacyBucketReader` and to no other role, and writes that policy back;
a second call with the same arguments writes back the very document the first call
stored, so a re-run adds no binding and no member. -/
theorem SetPolicyInStorageBucket_rerun (env : Env σ) (doc : σ → IamPolicy)
    (saEmail bucketName : String)
    (hget : ∀ s, env.BucketIAMPolicy bucketName s = (.ok (doc s), s))
    (hset : ∀ P s, (env.BucketIAMSetPolicy bucketName P s).1 = .ok () ∧
      doc (env.BucketIAMSetPolicy bucketName P s).2 = P)
    (w : World σ) :
    -- the first call
    (SetPolicyInStorageBucket env saEmail bucketName w).1 = none ∧
    callsSince w (SetPolicyInStorageBucket env saEmail bucketName w).2 =
      [.BucketIAMPolicy bucketName,
        .BucketIAMSetPolicy bucketName (bucketGrant saEmail (doc w.st))] ∧
    doc (SetPolicyInStorageBucket env saEmail bucketName w).2.st =
      bucketGrant saEmail (doc w.st) ∧
    (bucketGrant saEmail (doc w.st)).HasRole ("serviceAccount:" ++ saEmail)
      "roles/storage.objectAdmin" = true ∧
    (bucketGrant saEmail (doc w.st)).HasRole ("serviceAccount:" ++ saEmail)
      "roles/storage.legacyBucketReader" = true ∧
    (∀ r, r ≠ "roles/storage.objectAdmin" → r ≠ "roles/storage.legacyBucketReader" →
      (bucketGrant saEmail (doc w.st)).Members r = (doc w.st).Members r) ∧
    (∀ r, r = "roles/storage.objectAdmin" ∨ r = "roles/storage.legacyBucketReader" →
      (bucketGrant saEmail (doc w.st)).Members r =
        if "serviceAccount:" ++ saEmail ∈ (doc w.st).Members r then (doc w.st).Members r
        else (doc w.st).Members r ++ ["serviceAccount:" ++ saEmail]) ∧
    -- the second call
    (SetPolicyInStorageBucket env saEmail bucketName
      (SetPolicyInStorageBucket env saEmail bucketName w).2).1 = none ∧
    doc (SetPolicyInStorageBucket env saEmail bucketName
        (SetPolicyInStorageBucket env saEmail bucketName w).2).2.st =
      doc (SetPolicyInStorageBucket env saEmail bucketName w).2.st := by
  have step : ∀ w0 : World σ,
      (SetPolicyInStorageBucket env saEmail bucketName w0).1 = none ∧
      (SetPolicyInStorageBucket env saEmail bucketName w0).2.trace =
        w0.trace ++ [.BucketIAMPolicy bucketName,
          .BucketIAMSetPolicy bucketName (bucketGrant saEmail (doc w0.st))] ∧
      doc (SetPolicyInStorageBucket env saEmail bucketName w0).2.st =
        bucketGrant saEmail (doc w0.st) := by
    intro w0
    obtain ⟨hr, hd⟩ := hset (bucketGrant saEmail (doc w0.st)) w0.st
    simp only [SetPolicyInStorageBucket, World.call, hget, hr]
    exact ⟨trivial, by simp, hd⟩
  obtain ⟨a1, t1, d1⟩ := step w
  obtain ⟨a2, _, d2⟩ := step (SetPolicyInStorageBucket env saEmail bucketName w).2
  refine ⟨a1, by simp [callsSince, t1], d1, ?_, ?_, ?_, ?_, a2, ?_⟩
  · rw [HasRole_iff]
    simp only [bucketGrant, Members_Add]
    simp
    split
    · assumption
    · simp
  · rw [HasRole_iff]
    simp only [bucketGrant, Members_Add]
    simp
    split
    · assumption
    · simp
  · intro r h1 h2
    simp only [bucketGrant, Members_Add, h1, h2, if_false]
  · intro r hr
    rcases hr with rfl | rfl
    · simp only [bucketGrant, Members_Add]
      simp
    · simp only [bucketGrant, Members_Add]
      simp
  · rw [d2, d1, bucketGrant_idem]

/-- Witness of claim C6 (amended) on the in-memory provider: after a re-run the stored
bucket policy is the one the first run stored. -/
theorem SetPolicyInStorageBucket_rerun_witness :
    ((SetPolicyInStorageBucket memEnv "a@b" "bkt"
        (SetPolicyInStorageBucket memEnv "a@b" "bkt"
          (startIn freshMem)).2).2.st.bucketPolicies.lookup "bkt").getD emptyIamPolicy =
      ((SetPolicyInStorageBucket memEnv "a@b" "bkt"
          (startIn freshMem)).2.st.bucketPolicies.lookup "bkt").getD emptyIamPolicy :=
  (SetPolicyInStorageBucket_rerun memEnv
    (fun s => (s.bucketPolicies.lookup "bkt").getD emptyIamPolicy) "a@b" "bkt"
    (fun _ => rfl) (fun P s => ⟨rfl, by simp [memEnv]⟩) (startIn freshMem)).2.2.2.2.2.2.2.2

/-- Claim C7, as the code has it. An error from `NewCertStore` or from `NewCA` ends the
run at that point, with nothing called after it.  An error from `NewServerCertPair`
does not: `main` never reads it, and the run goes on into `NewGcs` and the rest of
the provisioning with an empty certificate and key. -/
theorem main_certificate_errors (env : Env σ) (w : World σ) :
    (∀ e, (env.NewCertStore "./pki" w.st).1 = .error e →
      main env w =
        (.fatal e,
          { st := (env.NewCertStore "./pki" w.st).2,
            trace := w.trace ++ [.NewCertStore "./pki"] })) ∧
    (∀ e, (env.NewCertStore "./pki" w.st).1 = .ok () →
      (env.NewCA (env.NewCertStore "./pki" w.st).2).1 = .error e →
      main env w =
        (.fatal e,
          { st := (env.NewCA (env.NewCertStore "./pki" w.st).2).2,
            trace := w.trace ++ [.NewCertStore "./pki", .NewCA] })) ∧
    (∀ e, (env.NewCertStore "./pki" w.st).1 = .ok () →
      (env.NewCA (env.NewCertStore "./pki" w.st).2).1 = .ok () →
      (env.NewServerCertPair "server" serverAltNames
        (env.NewCA (env.NewCertStore "./pki" w.st).2).2).1 = .error e →
      main env w =
        provision env (env.CACert (env.NewCA (env.NewCertStore "./pki" w.st).2).2) [] []
          { st := (env.NewServerCertPair "server" serverAltNames
              (env.NewCA (env.NewCertStore "./pki" w.st).2).2).2,
            trace := w.trace ++ [.NewCertStore "./pki", .NewCA,
              .NewServerCertPair "server" serverAltNames] }) := by
  refine ⟨?_, ?_, ?_⟩
  · intro e h
    simp [main, World.call, h]
  · intro e h1 h2
    simp [main, World.call, h1, h2]
  · intro e h1 h2 h3
    simp [main, World.call, h1, h2, h3]

/-- The run of `main` on the in-memory provider in which `NewServerCertPair` fails:
the run is not ended there; it reads the key file for `NewGcs`, creates the four
resources and writes the manifest. -/
theorem main_certificate_errors_witness :
    main memEnv (startIn { freshMem with certPairFails := true }) =
        provision memEnv [1] [] []
          { st := { freshMem with certPairFails := true },
            trace := [.NewCertStore "./pki", .NewCA,
              .NewServerCertPair "server" serverAltNames] } ∧
      (main memEnv (startIn { freshMem with certPairFails := true })).1 = Exit.done ∧
      Call.ReadFile SAJsonFile ∈
        (main memEnv (startIn { freshMem with certPairFails := true })).2.trace ∧
      ((main memEnv (startIn { freshMem with certPairFails := true })).2.trace.filter
        Call.isCreate).length = 4 ∧
      Call.WriteFile "vault-config.yaml" [115, 3, 45, 45, 45, 10, 99, 3] 777 ∈
        (main memEnv (startIn { freshMem with certPairFails := true })).2.trace :=
  ⟨(main_certificate_errors memEnv (startIn { freshMem with certPairFails := true })).2.2
      (.raw "failed to generate private key") rfl rfl rfl,
    by decide, by decide, by decide, by decide⟩

/-- Claim C8. The data map of `getSecret C S K` has exactly the three keys `ca.crt`,
`server.crt`, `server.key`, mapped to `C`, `S`, `K`; the data map of
`getConfigMap a b k` has exactly the three keys `api-addr`, `gcs-bucket-name`,
`kms-key-id`, mapped to `a`, `b`, `k`. -/
theorem manifest_data_maps (C S K : Bytes) (a b k : String) :
    ((getSecret C S K).Data.map Prod.fst = ["ca.crt", "server.crt", "server.key"] ∧
      ((getSecret C S K).Data.map Prod.fst).Nodup ∧
      ∀ key, (getSecret C S K).Data.lookup key =
        if key = "ca.crt" then some C
        else if key = "server.crt" then some S
        else if key = "server.key" then some K
        else none) ∧
    ((getConfigMap a b k).Data.map Prod.fst = ["api-addr", "gcs-bucket-name", "kms-key-id"] ∧
      ((getConfigMap a b k).Data.map Prod.fst).Nodup ∧
      ∀ key, (getConfigMap a b k).Data.lookup key =
        if key = "api-addr" then some a
        else if key = "gcs-bucket-name" then some b
        else if key = "kms-key-id" then some k
        else none) := by
  refine ⟨⟨rfl, by simp [getSecret], ?_⟩, ⟨rfl, by simp [getConfigMap], ?_⟩⟩
  · intro key
    simp only [getSecret, List.lookup]
    by_cases h1 : key = "ca.crt"
    · simp [h1]
    · have e1 : (key == "ca.crt") = false := by simpa using h1
      by_cases h2 : key = "server.crt"
      · simp [h2]
      · have e2 : (key == "server.crt") = false := by simpa using h2
        by_cases h3 : key = "server.key"
        · simp [h3]
        · have e3 : (key == "server.key") = false := by simpa using h3
          simp [h1, h2, h3, e1, e2, e3]
  · intro key
    simp only [getConfigMap, List.lookup]
    by_cases h1 : key = "api-addr"
    · simp [h1]
    · have e1 : (key == "api-addr") = false := by simpa using h1
      by_cases h2 : key = "gcs-bucket-name"
      · simp [h2]
      · have e2 : (key == "gcs-bucket-name") = false := by simpa using h2
        by_cases h3 : key = "kms-key-id"
        · simp [h3]
        · have e3 : (key == "kms-key-id") = false := by simpa using h3
          simp [h1, h2, h3, e1, e2, e3]

/-- Claim C9. The object list `main` hands to `GenerateYmals` has exactly two
elements, the secret document first and the configuration document second.  With the
encoder `enc` of the codec: for every object list whose encodings all succeed,
`GenerateYmals` returns the encodings in input order with the separator `---` and a
newline exactly between consecutive documents, so one separator fewer than
documents; when an encoding fails, it returns that error and no bytes. -/
theorem GenerateYmals_manifest (env : Env σ) (enc : Object → Except GoError Bytes)
    (h : env.SerializerInfoForMediaType "application/yaml" = some enc) :
    (∀ ca crt key kmsKeyID, manifestObjects ca crt key kmsKeyID =
      [Object.secret (getSecret ca crt key),
        Object.configMap (getConfigMap "https://vault.default.svc" BucketName kmsKeyID)]) ∧
    (∀ objects docs, objects.map enc = docs.map Except.ok →
      GenerateYmals env objects = .ok (joinDocs docs)) ∧
    (∀ docs : List Bytes, (joinDocs docs).length =
      (docs.map List.length).sum + (docs.length - 1) * separator.length) ∧
    (∀ ca crt key kmsKeyID d1 d2,
      enc (Object.secret (getSecret ca crt key)) = .ok d1 →
      enc (Object.configMap
        (getConfigMap "https://vault.default.svc" BucketName kmsKeyID)) = .ok d2 →
      GenerateYmals env (manifestObjects ca crt key kmsKeyID) =
        .ok (d1 ++ [45, 45, 45, 10] ++ d2)) ∧
    (∀ pre o post e, (∀ x ∈ pre, ∃ b, enc x = .ok b) → enc o = .error e →
      GenerateYmals env (pre ++ o :: post) = .error e) := by
  refine ⟨fun _ _ _ _ => rfl, ?_, joinDocs_length, ?_, ?_⟩
  · intro objects docs hd
    simp only [GenerateYmals, h]
    rw [encodeLoop_ok enc objects docs 0 [] hd]
    simp
  · intro ca crt key kmsKeyID d1 d2 h1 h2
    simp only [GenerateYmals, h, manifestObjects, List.nil_append]
    rw [encodeLoop_ok enc _ [d1, d2] 0 [] (by simp [h1, h2])]
    simp [joinDocs, separator]
  · intro pre o post e hpre ho
    simp only [GenerateYmals, h]
    exact encodeLoop_error enc pre o post e hpre ho 0 []

/-- Witness of claim C9 with the encoder of the in-memory provider: the manifest of
the two documents is the two encodings with one separator between them. -/
theorem GenerateYmals_manifest_witness :
    GenerateYmals memEnv (manifestObjects [1] [2] [3] "k") =
      .ok ([115, 3] ++ [45, 45, 45, 10] ++ [99, 3]) :=
  (GenerateYmals_manifest memEnv memEncode rfl).2.2.2.1 [1] [2] [3] "k" [115, 3] [99, 3]
    rfl rfl

/-- Counterexample to claim C10 as stated: for an empty key ring id, and for the ids
`.`, `..` and `a//b`, the name `CreateKeyRing` builds with `filepath.Join` is not the
name `IsKeyRingExists` looks up. -/
theorem keyRing_names_differ :
    keyRingCreateName "p" "global" "" ≠ keyRingLookupName "p" "global" "" ∧
    keyRingCreateName "p" "global" "." ≠ keyRingLookupName "p" "global" "." ∧
    keyRingCreateName "p" "global" ".." ≠ keyRingLookupName "p" "global" ".." ∧
    keyRingCreateName "p" "global" "a//b" ≠ keyRingLookupName "p" "global" "a//b" ∧
    keyRingCreateName "p" "global" "" = "projects/p/locations/global/keyRings" ∧
    keyRingCreateName "p" "global" ".." = "projects/p/locations/global" := by
  decide

/-- Claim C10, amended. The name `IsKeyRingExists` looks up equals the name
`CreateKeyRing` puts in the key ring it creates exactly when every `/`-separated
element of the project id, of the location and of the key ring id is a real path
element (not empty, not `.`, not `..`): for such identifiers the check and the create
refer to the same key ring, for all others the two names differ. -/
theorem keyRing_names_agree (projectID location keyRingID : String) :
    keyRingCreateName projectID location keyRingID =
        keyRingLookupName projectID location keyRingID ↔
      (realElems projectID = true ∧ realElems location = true ∧
        realElems keyRingID = true) := by
  have hname : joinSlash [keyRingParent projectID location, "keyRings", keyRingID] =
      keyRingLookupName projectID location keyRingID := by
    apply String.ext
    simp [joinSlash, keyRingParent, keyRingLookupName, String.data_append]
  have hne : keyRingParent projectID location ≠ "" := by
    intro h
    have := congrArg String.data h
    simp [keyRingParent, String.data_append] at this
  have hcreate : keyRingCreateName projectID location keyRingID =
      Clean (keyRingLookupName projectID location keyRingID) := by
    simp only [keyRingCreateName, Join, hne, ne_eq, not_false_eq_true, if_true, hname]
  have hnoSlash : ∀ e ∈ splitSlash projectID.data ++ "locations".data ::
      (splitSlash location.data ++ "keyRings".data :: splitSlash keyRingID.data),
      '/' ∉ e := by
    intro e he
    simp only [List.mem_cons, List.mem_append] at he
    rcases he with he | rfl | he | rfl | he
    · exact splitSlash_noSlash _ e he
    · decide
    · exact splitSlash_noSlash _ e he
    · decide
    · exact splitSlash_noSlash _ e he
  rw [hcreate]
  constructor
  · intro h
    have hd : cleanChars (keyRingLookupName projectID location keyRingID).data =
        (keyRingLookupName projectID location keyRingID).data := by
      have := congrArg String.data h
      simpa [Clean] using this
    rw [keyRingLookupName_data] at hd
    have hall := cleanChars_fixed _ _ (by decide) (by decide) hnoSlash hd
    simp only [realElems, List.all_eq_true]
    refine ⟨fun x hx => hall x ?_, fun x hx => hall x ?_, fun x hx => hall x ?_⟩
    · simp [hx]
    · simp [hx]
    · simp [hx]
  · rintro ⟨hp, hl, hk⟩
    apply String.ext
    simp only [Clean]
    rw [keyRingLookupName_data]
    apply cleanChars_joinElems
    · simp
    · intro e he
      have hall : ∀ (s : String), realElems s = true → ∀ x ∈ splitSlash s.data,
          realElem x = true ∧ '/' ∉ x := by
        intro s hs x hx
        simp only [realElems, List.all_eq_true] at hs
        exact ⟨hs x hx, splitSlash_noSlash _ x hx⟩
      simp only [List.mem_cons, List.mem_append] at he
      rcases he with rfl | he | rfl | he | rfl | he
      · decide
      · exact hall _ hp e he
      · decide
      · exact hall _ hl e he
      · decide
      · exact hall _ hk e he

/-- Witness of claim C10 (amended) at the identifiers `main` uses. -/
theorem keyRing_names_agree_witness :
    keyRingCreateName ProjectID "global" KeyRingName =
      keyRingLookupName ProjectID "global" KeyRingName :=
  (keyRing_names_agree ProjectID "global" KeyRingName).mpr
    ⟨by decide, by decide, by decide⟩

end Claims

end VaultGKE
